import Mathlib

/-!
Shallow embedding of the ozon-parser repository's core logic, translated from
`src/app/services/parser.py` and `src/app/services/position_tracker.py`, together
with theorems settling the frozen specification claims.

Product identifiers are decimal digit strings in the source; the JS extraction
guarantees digits-only identifiers, so they are modelled by their numeric value
(`Nat`).  Browser I/O is abstracted by a script: the list of per-observation page
snapshots, each snapshot being the list of product identifiers extractable from
the page at that moment.  Challenge (captcha/block) interruptions are not part of
the search model; the model follows the unobstructed control flow of
`find_product_position`.
-/

set_option maxRecDepth 10000

/-! ## Search model (`parser.py`, `OzonParser`) -/

/-- The JS filter inside `_collect_products_from_page` (parser.py lines 858-884):
keeps the page's identifiers that are neither in the passed seen list nor already
collected in this batch, preserving page order. -/
def collectNewIds (seenList : List Nat) (pageIds : List Nat) : List Nat :=
  pageIds.foldl
    (fun ids pid =>
      if seenList.contains pid || ids.contains pid then ids else ids ++ [pid])
    []

/-- Python side of `_collect_products_from_page` (parser.py lines 851-889): the
seen set is handed to the JS filter only while it has fewer than 2000 entries
(`seen_list = list(seen_products) if len(seen_products) < 2000 else []`);
the returned identifiers are then added to the seen set.  Returns
`(new_products, updated seen set)`; the seen set is modelled as a
duplicate-free list. -/
def collectFromPage (seen : List Nat) (pageIds : List Nat) : List Nat × List Nat :=
  let seenList := if seen.length < 2000 then seen else []
  let newIds := collectNewIds seenList pageIds
  (newIds, seen ++ newIds.filter (fun pid => !(seen.contains pid)))

/-- Result of running one counting loop over a batch of new products. -/
inductive BatchStep where
  | foundAt (pos : Nat)
  | ceilingHit
  | continueAt (pos : Nat)
deriving DecidableEq, Repr

/-- The per-batch counting loop of `find_product_position`:
`position += 1; if product_id == target_article: return position;`
and, only inside the main loop (`capped = true`),
`if position >= max_position: return None` (parser.py lines 963-967, 987-991,
1073-1081).  Returns the loop outcome and the identifiers that incremented the
position counter, in order. -/
def countBatch (target maxPos : Nat) (capped : Bool) :
    Nat → List Nat → BatchStep × List Nat
  | _pos, [] => (.continueAt _pos, [])
  | pos, pid :: rest =>
    if pid = target then (.foundAt (pos + 1), [pid])
    else if capped ∧ maxPos ≤ pos + 1 then (.ceilingHit, [pid])
    else
      let next := countBatch target maxPos capped (pos + 1) rest
      (next.1, pid :: next.2)

/-- Terminal outcome of `find_product_position`: a found 1-based position, the
`None` not-found return, or the `OzonPageLoadError` raised when no products
appear on the first page. -/
inductive SearchOutcome where
  | found (pos : Nat)
  | notFound
  | loadError
deriving DecidableEq, Repr

/-- The main `while position < max_position and page_num < max_pages` loop of
`find_product_position` (parser.py lines 993-1089).  Each iteration advances the
listing (pagination `goto` or one scroll - both increment `page_num` exactly once
per iteration), extracts a batch against the seen set, tracks consecutive empty
batches (`max_empty_pages = 2`), and counts new identifiers with the ceiling
check.  Once the script is exhausted every further extraction is empty, so the
loop returns `None` within two more iterations; the `[]` case returns that
directly.  Returns the outcome and the identifiers counted inside the loop. -/
def searchLoop (target maxPos maxPages : Nat) :
    List (List Nat) → List Nat → Nat → Nat → Nat → SearchOutcome × List Nat
  | [], _, _, _, _ => (.notFound, [])
  | snap :: rest, seen, pos, pageNum, emptyPages =>
    if pos < maxPos ∧ pageNum < maxPages then
      let step := collectFromPage seen snap
      if step.1 = [] then
        if 2 ≤ emptyPages + 1 then (.notFound, [])
        else searchLoop target maxPos maxPages rest step.2 pos (pageNum + 1) (emptyPages + 1)
      else
        match countBatch target maxPos true pos step.1 with
        | (.foundAt p, counted) => (.found p, counted)
        | (.ceilingHit, counted) => (.notFound, counted)
        | (.continueAt pos', counted) =>
          let next := searchLoop target maxPos maxPages rest step.2 pos' (pageNum + 1) 0
          (next.1, counted ++ next.2)
    else (.notFound, [])

/-- `OzonParser.find_product_position` (parser.py lines 891-1093), as a function
of the observation script.  Phases, in source order: first-page extraction and
counting (no ceiling check), the scroll probe extraction and counting (no
ceiling check; an empty probe batch selects pagination mode, which does not
change the counting behaviour), then the main loop with
`max_pages = max_position // 36 + 2`.  An empty script or an empty first
snapshot is the `wait_for_selector` timeout path raising `OzonPageLoadError`.
Returns the outcome together with every identifier that incremented the
position counter, in order. -/
def find_product_position (target maxPos : Nat) (script : List (List Nat)) :
    SearchOutcome × List Nat :=
  let maxPages := maxPos / 36 + 2
  match script with
  | [] => (.loadError, [])
  | first :: rest =>
    if first = [] then (.loadError, [])
    else
      let s1 := collectFromPage [] first
      match countBatch target maxPos false 0 s1.1 with
      | (.foundAt p, counted) => (.found p, counted)
      | (.ceilingHit, counted) => (.notFound, counted)
      | (.continueAt pos1, counted1) =>
        let s2 := collectFromPage s1.2 (rest.headD [])
        match countBatch target maxPos false pos1 s2.1 with
        | (.foundAt p, counted2) => (.found p, counted1 ++ counted2)
        | (.ceilingHit, counted2) => (.notFound, counted1 ++ counted2)
        | (.continueAt pos2, counted2) =>
          let next := searchLoop target maxPos maxPages rest.tail s2.2 pos2 1 0
          (next.1, counted1 ++ counted2 ++ next.2)

/-- Number of identifiers extracted by the first page and the scroll probe of a
run (the two counting phases that precede the main loop). -/
def firstTwoNewCount (script : List (List Nat)) : Nat :=
  match script with
  | [] => 0
  | first :: rest =>
    let s1 := collectFromPage [] first
    let s2 := collectFromPage s1.2 (rest.headD [])
    s1.1.length + s2.1.length

/-- The unique identifiers of a delivered sequence in encounter order (first
occurrences kept). -/
def uniqueFirstsAux (seen : List Nat) : List Nat → List Nat
  | [] => []
  | x :: xs =>
    if seen.contains x then uniqueFirstsAux seen xs
    else x :: uniqueFirstsAux (seen ++ [x]) xs

/-- First occurrences of a list, in order. -/
def uniqueFirsts (l : List Nat) : List Nat := uniqueFirstsAux [] l

/-! ## Challenge detector model (`parser.py`) -/

/-- Lowercasing as the source's checks apply it.  Python `str.lower` also maps
non-ASCII letters; `Char.toLower` covers the ASCII range, which suffices for
the claims settled here (the stored keywords are already lowercase). -/
def lowerStr (s : String) : String := String.mk (s.data.map Char.toLower)

/-- Character-list prefix test. -/
def startsWithChars : List Char → List Char → Bool
  | [], _ => true
  | _ :: _, [] => false
  | c :: cs, d :: ds => (c == d) && startsWithChars cs ds

/-- Substring occurrence on character lists. -/
def subChars (needle : List Char) : List Char → Bool
  | [] => needle.isEmpty
  | c :: cs => startsWithChars needle (c :: cs) || subChars needle cs

/-- Python substring membership `needle in hay`. -/
def containsSub (needle hay : String) : Bool := subChars needle.data hay.data

/-- The captcha keyword list of `_is_captcha_page` (parser.py line 652). -/
def captchaKeywords : List String :=
  ["бот", "robot", "bot", "captcha", "подтверд", "confirm", "antibot", "challenge"]

/-- `OzonParser._is_captcha_page` (parser.py lines 649-655): reads the page
title and looks for a challenge keyword; any exception yields `False`.
`none` models the title read raising. -/
def is_captcha_page (titleRead : Option String) : Bool :=
  match titleRead with
  | none => false
  | some t => captchaKeywords.any (fun kw => containsSub kw (lowerStr t))

/-- `OzonParser._is_blocked_page` (parser.py lines 657-667): reads the page's
`h1` heading and looks for the access-restricted phrase; any exception yields
`False`.  `none` models the DOM read raising, `some none` a page without a
heading. -/
def is_blocked_page (h1Read : Option (Option String)) : Bool :=
  match h1Read with
  | none => false
  | some none => false
  | some (some txt) => containsSub ("доступ ограничен") (lowerStr txt)

/-- `OzonParser._check_page_status` (parser.py lines 669-686): one batched page
evaluation returning `(is_captcha, is_blocked)`; an evaluation failure (`none`)
yields `(False, False)`. -/
def check_page_status (pageRead : Option (String × Option String)) : Bool × Bool :=
  match pageRead with
  | none => (false, false)
  | some (title, h1) =>
    (captchaKeywords.any (fun kw => containsSub kw (lowerStr title)),
      match h1 with
      | none => false
      | some txt => containsSub ("доступ ограничен") (lowerStr txt))

/-! ## Result ledger model (`position_tracker.py`, `PositionTracker`) -/

/-- A worksheet: the header row (`row_values(1)`) and the data rows (sheet rows
2 and below), each a list of cell strings. -/
structure Sheet where
  headers : List String
  rows : List (List String)
deriving DecidableEq, Repr

/-- One-or-two-digit hour, a colon, and a two-digit minute: the time part of
the hourly-bucket header pattern `\d{1,2}:\d{2}`. -/
def timePart : List Char → Bool
  | [h1, ':', m1, m2] => h1.isDigit && m1.isDigit && m2.isDigit
  | [h1, h2, ':', m1, m2] => h1.isDigit && h2.isDigit && m1.isDigit && m2.isDigit
  | _ => false

/-- Strip an expected exact prefix from a character list. -/
def dropExact : List Char → List Char → Option (List Char)
  | [], rest => some rest
  | _ :: _, [] => none
  | c :: cs, d :: ds => if c = d then dropExact cs ds else none

/-- The regex `^{date} \d{1,2}:\d{2}$` of `_get_hourly_columns_for_date`
(position_tracker.py line 149); `re.escape` makes the date part literal. -/
def matchesHourly (dateStr header : String) : Bool :=
  match dropExact (dateStr.data ++ [' ']) header.data with
  | some restChars => timePart restChars
  | none => false

/-- The `for i, header in enumerate(headers)` loop of
`_get_hourly_columns_for_date`, threading the 0-based index. -/
def hourlyColsAux (dateStr : String) : List String → Nat → List Nat
  | [], _ => []
  | h :: rest, i =>
    if matchesHourly dateStr h then (i + 1) :: hourlyColsAux dateStr rest (i + 1)
    else hourlyColsAux dateStr rest (i + 1)

/-- `PositionTracker._get_hourly_columns_for_date` (lines 139-156): the 1-based
indices of all headers matching the hourly pattern for the date, ascending. -/
def get_hourly_columns_for_date (headers : List String) (dateStr : String) : List Nat :=
  hourlyColsAux dateStr headers 0

/-- Value of a run of decimal digits; `none` on any non-digit. -/
def digitsVal : List Char → Nat → Option Nat
  | [], acc => some acc
  | c :: cs, acc =>
    if c.isDigit then digitsVal cs (10 * acc + (c.toNat - 48)) else none

/-- Python `int(...)` on the decimal cell contents this sheet holds: an
optional sign followed by decimal digits; anything else raises `ValueError`
(Python additionally strips whitespace and allows digit-group underscores,
which these cells never contain). -/
def strInt : List Char → Option Int
  | [] => none
  | '-' :: cs => if cs = [] then none else (digitsVal cs 0).map (fun n => -(n : Int))
  | '+' :: cs => if cs = [] then none else (digitsVal cs 0).map (fun n => (n : Int))
  | cs => (digitsVal cs 0).map (fun n => (n : Int))

/-- Cell parsing inside consolidation (lines 204-212): empty cells are skipped,
a trailing `+` (`cell_value.endswith("+")`) reads as the ceiling value 1000,
otherwise `int(...)`; parse failures are skipped. -/
def parseCell (cell : String) : Option Int :=
  if cell = "" then none
  else if cell.data.getLast? = some '+' then some 1000
  else strInt cell.data

/-- The values collected for one data row (lines 200-212): hourly columns in
order, skipping columns beyond the row's width and unparseable cells. -/
def rowValues (hourlyCols : List Nat) (row : List String) : List Int :=
  hourlyCols.foldl
    (fun vs c =>
      if c ≤ row.length then
        match parseCell (row.getD (c - 1) "") with
        | some v => vs ++ [v]
        | none => vs
      else vs)
    []

/-- Python `round` (round-half-to-even) of `num / den` for `den > 0`.  The
float division `sum(values) / len(values)` the source performs is correctly
rounded and, at the magnitudes these sheets hold, never crosses an integer or
half-integer boundary, so exact integer arithmetic reproduces `round`. -/
def roundHalfEven (num : Int) (den : Nat) : Int :=
  let d : Int := (den : Int)
  let q := Int.ediv num d
  let r := Int.emod num d
  if 2 * r < d then q
  else if d < 2 * r then q + 1
  else if Int.emod q 2 = 0 then q else q + 1

/-- The daily cell computed for one row (lines 214-222): empty when no values,
the sentinel `1000+` when the mean reaches 1000 (`avg >= 1000`, equivalently
`sum >= 1000 * len`), otherwise the rounded mean. -/
def avgCell (hourlyCols : List Nat) (row : List String) : String :=
  let vs := rowValues hourlyCols row
  if vs.length = 0 then ""
  else if 1000 * (vs.length : Int) ≤ vs.sum then "1000+"
  else toString (roundHalfEven vs.sum vs.length)

/-- Python `min` over a nonempty list (line 225). -/
def minList : List Nat → Nat
  | [] => 0
  | x :: xs => xs.foldl min x

/-- `worksheet.update_cell` on a data row: the grid grows as needed, then the
1-based column `c` is set. -/
def setCellPadded (row : List String) (c : Nat) (v : String) : List String :=
  (row ++ List.replicate (c - row.length) "").set (c - 1) v

/-- Descending insertion: helper for `sorted(columns, reverse=True)`. -/
def insertDesc (x : Nat) : List Nat → List Nat
  | [] => [x]
  | y :: ys => if y ≤ x then x :: y :: ys else y :: insertDesc x ys

/-- `sorted(columns, reverse=True)` (line 246). -/
def sortDesc (l : List Nat) : List Nat := l.foldr insertDesc []

/-- `worksheet.delete_columns(c)`: drop the 1-based column from the header row
and from every data row. -/
def deleteColumn (s : Sheet) (c : Nat) : Sheet :=
  { headers := s.headers.eraseIdx (c - 1)
    rows := s.rows.map (fun row => row.eraseIdx (c - 1)) }

/-- `PositionTracker.consolidate_daily_results` (lines 158-253).  No hourly
column: report `False`, change nothing.  Exactly one: rename its header to the
date.  Two or more: write each row's average into the leftmost hourly column,
rename its header to the date, and delete the remaining hourly columns from
right to left.  Returns `(performed, new sheet)`. -/
def consolidate_daily_results (s : Sheet) (dateStr : String) : Bool × Sheet :=
  let hourly := get_hourly_columns_for_date s.headers dateStr
  match hourly with
  | [] => (false, s)
  | [c] => (true, { s with headers := s.headers.set (c - 1) dateStr })
  | _ :: _ :: _ =>
    let ip := minList hourly
    let s1 : Sheet :=
      { headers := s.headers.set (ip - 1) dateStr
        rows := s.rows.map (fun row => setCellPadded row ip (avgCell hourly row)) }
    let toDelete := (sortDesc hourly).filter (fun c => c != ip)
    (true, toDelete.foldl deleteColumn s1)

/-- The specification's daily value for one row, written from the claim's
words: the arithmetic mean of the row's numeric hourly cell values with the
ceiling sentinel read as 1000, rounded; re-emitted as the sentinel exactly when
the mean reaches the ceiling; empty when the row has no numeric hourly value.
The hourly cells are read off directly by column index. -/
def specDailyValue (hourlyCells : List String) : String :=
  let vals := hourlyCells.filterMap parseCell
  if vals.length = 0 then ""
  else if 1000 * (vals.length : Int) ≤ vals.sum then "1000+"
  else toString (roundHalfEven vals.sum vals.length)

/-! ## Task parsing and the worker pool (`position_tracker.py`) -/

/-- Python `str.strip()` on the cell contents this sheet holds: ASCII
whitespace removed from both ends. -/
def strip (s : String) : String :=
  String.mk (((s.data.dropWhile Char.isWhitespace).reverse.dropWhile
    Char.isWhitespace).reverse)

/-- A search task parsed from the sheet (the `SearchTask` dataclass). -/
structure SearchTask where
  row_index : Nat
  article : String
  query : String
deriving DecidableEq, Repr

/-- The row loop of `get_tasks_from_sheet` (lines 92-113): threads the current
article; rows shorter than 3 cells are skipped entirely; a row with a
non-empty first cell becomes the current article and yields no task; otherwise
a row with a current article and a non-empty query yields a task. -/
def tasksLoop : List (List String) → Nat → Option String → List SearchTask
  | [], _, _ => []
  | row :: rest, idx, current =>
    if row.length < 3 then tasksLoop rest (idx + 1) current
    else
      let article := strip (row.getD 0 "")
      let query := strip (row.getD 2 "")
      if article ≠ "" then tasksLoop rest (idx + 1) (some article)
      else
        match current with
        | some art =>
          if art ≠ "" ∧ query ≠ "" then
            ⟨idx, art, query⟩ :: tasksLoop rest (idx + 1) current
          else tasksLoop rest (idx + 1) current
        | none => tasksLoop rest (idx + 1) current

/-- `PositionTracker.get_tasks_from_sheet` (lines 84-116): skip the header row
and enumerate the remaining rows from sheet row 2. -/
def get_tasks_from_sheet (data : List (List String)) : List SearchTask :=
  tasksLoop (data.drop 1) 2 none

/-- The nearest preceding row (strictly before 0-based data index `i`) whose
first cell is non-empty after trimming; written from the claim's words. -/
def nearestHeader : List (List String) → Nat → Option String
  | _, 0 => none
  | [], _ + 1 => none
  | r :: rest, i + 1 =>
    match nearestHeader rest i with
    | some a => some a
    | none =>
      let a := strip (r.getD 0 "")
      if a ≠ "" then some a else none

/-- The claim's description of the parsed task list: exactly the data rows
with an empty identifier cell, a non-empty query cell and at least one
preceding identifier row, each inheriting the nearest preceding identifier
(sheet row number = 0-based data index + 2). -/
def tasksSpec (rows : List (List String)) : List SearchTask :=
  (List.range rows.length).filterMap (fun i =>
    let row := rows.getD i []
    if strip (row.getD 0 "") = "" ∧ strip (row.getD 2 "") ≠ "" then
      (nearestHeader rows i).map (fun a => ⟨i + 2, a, strip (row.getD 2 "")⟩)
    else none)

/-- `insert_cols` padding helper: insert a value at 0-based position `i`,
padding short rows as the rectangular grid does. -/
def insertAt : Nat → String → List String → List String
  | 0, v, l => v :: l
  | n + 1, v, [] => "" :: insertAt n v []
  | n + 1, v, x :: xs => x :: insertAt n v xs

/-- `PositionTracker.get_or_create_hourly_column` (lines 118-137): the current
hour's bucket is reused only when it already sits at position D
(`len(headers) >= 4 and headers[3] == column_name`); otherwise a fresh empty
column is inserted at position 4 and titled.  Returns the 1-based column index
(always 4) and the resulting sheet. -/
def get_or_create_hourly_column (columnName : String) (s : Sheet) : Nat × Sheet :=
  if 4 ≤ s.headers.length ∧ s.headers.getD 3 "" = columnName then (4, s)
  else
    (4,
      { headers := (insertAt 3 "" s.headers).set 3 columnName
        rows := s.rows.map (fun row => insertAt 3 "" row) })

/-- `worksheet.update_cell(row, col, value)` on sheet row `r ≥ 2`: pad the data
grid down as needed and set the 1-based cell. -/
def writeCell (s : Sheet) (r c : Nat) (v : String) : Sheet :=
  let rows := s.rows ++ List.replicate (r - 1 - s.rows.length) []
  { s with rows := rows.set (r - 2) (setCellPadded (rows.getD (r - 2) []) c v) }

/-- The write phase of `PositionTracker.run` with `_worker` (lines 450-536):
the hourly column is selected once, then every task's computed result string
is written to `(task.row_index, column)`.  The sheet's prior cell contents are
never consulted.  `results` pairs each parsed task with the result string its
search produced. -/
def run_writes (columnName : String) (s : Sheet)
    (results : List (SearchTask × String)) : Sheet :=
  let start := get_or_create_hourly_column columnName s
  results.foldl (fun sh tr => writeCell sh tr.1.row_index start.1 tr.2) start.2

/-- Behaviour of one `find_product_position` attempt inside
`_process_single_task` (lines 375-437), as seen by the retry loop. -/
inductive AttemptEvent where
  | ok (pos : Option Int)
  | blocked
  | loadFailure
  | closedError
  | timeoutError
  | fatalError
deriving DecidableEq, Repr

/-- The three-attempt retry loop of `_process_single_task` (lines 374-437),
threading the `position` variable exactly as the source does: the blocked,
page-load, closed-browser and timeout handlers leave it untouched and retry;
the fatal branch sets it to -1 and breaks; a returned -1 retries until the
third attempt and then sticks; any other returned value breaks immediately.
The fuel argument counts the remaining iterations of `for attempt in
range(3)` (the loop runs while `attempt < 3`, so fuel = 3 - attempt). -/
def attemptGo (events : List AttemptEvent) : Nat → Nat → Option Int → Option Int
  | 0, _, position => position
  | fuel + 1, attempt, position =>
    match events.getD attempt .fatalError with
    | .ok v =>
      match v with
      | some value =>
        if value = -1 then
          if attempt < 2 then attemptGo events fuel (attempt + 1) (some (-1))
          else some (-1)
        else some value
      | none => none
    | .blocked => attemptGo events fuel (attempt + 1) position
    | .loadFailure => attemptGo events fuel (attempt + 1) position
    | .closedError => attemptGo events fuel (attempt + 1) position
    | .timeoutError => attemptGo events fuel (attempt + 1) position
    | .fatalError => some (-1)

/-- `_process_single_task`'s final `position` for one task, given how its three
attempts behave (`position` starts as `None`). -/
def process_single_task (events : List AttemptEvent) : Option Int :=
  attemptGo events 3 0 none

/-- The cell string and found-highlight flag computed at lines 439-448: a
positive position renders in decimal and is highlighted, `None` renders as
`"<max_position>+"`, anything else as the dash. -/
def resultCell (maxPos : Nat) (position : Option Int) : String × Bool :=
  match position with
  | some v => if 0 < v then (toString v, true) else ("—", false)
  | none => (toString maxPos ++ "+", false)

/-- The string recorded for one task: the retry loop followed by the cell
rendering. -/
def runCell (maxPos : Nat) (events : List AttemptEvent) : String × Bool :=
  resultCell maxPos (process_single_task events)

/-- Worker-level behaviour of one task (lines 475-495): `_process_single_task`
either completes (with some attempt script), or raises and the worker recovers
a fresh page (recording the dash), or the recovery itself also fails and the
worker stops without recording anything. -/
inductive TaskBehavior where
  | completes (events : List AttemptEvent)
  | raisesThenRecovers
  | raisesNoRecovery
deriving DecidableEq, Repr

/-- The `_worker` dequeue loop (lines 450-497) for a single-worker pool: each
task yields a recorded `(task, result)` pair unless page recovery fails, which
stops the worker with the current task unrecorded and the queue undrained. -/
def workerRun (maxPos : Nat) : List (SearchTask × TaskBehavior) → List (SearchTask × String)
  | [] => []
  | (t, .completes events) :: rest =>
    (t, (runCell maxPos events).1) :: workerRun maxPos rest
  | (t, .raisesThenRecovers) :: rest => (t, "—") :: workerRun maxPos rest
  | (_, .raisesNoRecovery) :: _ => []


/-- `nearestHeader` with a fallback current article, used to state the parsing
equivalence for a loop already carrying an inherited article. -/
def nearestHeaderOr (cur : Option String) (rows : List (List String)) (i : Nat) :
    Option String :=
  match nearestHeader rows i with
  | some a => some a
  | none => cur

/-- `tasksSpec` generalized over the starting sheet-row number and an already
inherited article. -/
def tasksSpecFrom (cur : Option String) (idx : Nat) (rows : List (List String)) :
    List SearchTask :=
  (List.range rows.length).filterMap (fun i =>
    let row := rows.getD i []
    if strip (row.getD 0 "") = "" ∧ strip (row.getD 2 "") ≠ "" then
      (nearestHeaderOr cur rows i).map (fun a => ⟨i + idx, a, strip (row.getD 2 "")⟩)
    else none)

/-- Concrete sheet used to witness the consolidation theorem: three hourly
buckets for 28.01 whose row holds the values 5, 15 and the ceiling
sentinel. -/
def exampleSheet : Sheet :=
  { headers := ["Артикул", "Название", "Запрос", "28.01 10:00", "28.01 11:00", "28.01 12:00"]
    rows := [["", "", "q", "5", "15", "1000+"]] }

/-- A sheet whose 28.01 column is already a daily bucket. -/
def exampleDailySheet : Sheet :=
  { headers := ["Артикул", "Название", "Запрос", "28.01"]
    rows := [["", "", "q", "7"]] }

/-- A sheet with exactly one hourly bucket for 28.01. -/
def exampleHourlySheet : Sheet :=
  { headers := ["Артикул", "Название", "Запрос", "28.01 14:00"]
    rows := [["", "", "q", "7"]] }

/-- A sheet whose current-hour column already exists at position D with one
filled cell and one empty cell, used for the write-phase witnesses. -/
def exampleRunSheet : Sheet :=
  { headers := ["Артикул", "Название", "Запрос", "28.01 14:00"]
    rows := [["", "", "q1", "7"], ["", "", "q2", ""]] }

/-! ## Lemmas about the collection and counting primitives -/

theorem contains_eq_dec (l : List Nat) (a : Nat) : l.contains a = decide (a ∈ l) :=
  List.elem_eq_mem a l

theorem collectNewIds_go (seenList : List Nat) (pageIds : List Nat) :
    ∀ acc : List Nat, pageIds.Nodup →
    (∀ x ∈ pageIds, x ∉ seenList) →
    (∀ x ∈ pageIds, x ∉ acc) →
    pageIds.foldl
      (fun ids pid =>
        if seenList.contains pid || ids.contains pid then ids else ids ++ [pid])
      acc = acc ++ pageIds := by
  induction pageIds with
  | nil => intro acc _ _ _; simp
  | cons pid rest ih =>
    intro acc hd hseen hacc
    have h1 : seenList.contains pid = false := by
      simp only [contains_eq_dec, decide_eq_false_iff_not]
      exact hseen pid (by simp)
    have h2 : acc.contains pid = false := by
      simp only [contains_eq_dec, decide_eq_false_iff_not]
      exact hacc pid (by simp)
    have hpid : pid ∉ rest := (List.nodup_cons.mp hd).1
    rw [List.foldl_cons, h1, h2]
    simp only [Bool.or_self, Bool.false_or, if_neg Bool.false_ne_true]
    rw [ih (acc ++ [pid]) (List.nodup_cons.mp hd).2
      (fun x hx => hseen x (by simp [hx]))
      (fun x hx => by
        simp only [List.mem_append, List.mem_singleton]
        rintro (h | rfl)
        · exact hacc x (by simp [hx]) h
        · exact hpid hx)]
    simp

theorem collectNewIds_fresh (seenList pageIds : List Nat)
    (hd : pageIds.Nodup) (hseen : ∀ x ∈ pageIds, x ∉ seenList) :
    collectNewIds seenList pageIds = pageIds := by
  have h := collectNewIds_go seenList pageIds [] hd hseen (by intro x _; simp)
  unfold collectNewIds
  simpa only [List.nil_append] using h

theorem collectNewIds_subset_go (seenList : List Nat) (pageIds : List Nat) :
    ∀ acc x, x ∈ pageIds.foldl
      (fun ids pid =>
        if seenList.contains pid || ids.contains pid then ids else ids ++ [pid])
      acc → x ∈ acc ∨ x ∈ pageIds := by
  induction pageIds with
  | nil => intro acc x hx; exact Or.inl (by simpa using hx)
  | cons pid rest ih =>
    intro acc x hx
    rw [List.foldl_cons] at hx
    rcases ih _ x hx with h | h
    · by_cases hc : (seenList.contains pid || acc.contains pid) = true
      · rw [if_pos hc] at h; exact Or.inl h
      · rw [if_neg hc] at h
        rcases List.mem_append.mp h with h' | h'
        · exact Or.inl h'
        · exact Or.inr (by simp at h'; simp [h'])
    · exact Or.inr (by simp [h])

theorem collectFromPage_subset (seen snap : List Nat) :
    ∀ x ∈ (collectFromPage seen snap).1, x ∈ snap := by
  intro x hx
  simp only [collectFromPage, collectNewIds] at hx
  rcases collectNewIds_subset_go _ snap [] x hx with h | h
  · simp at h
  · exact h

theorem countBatch_uncapped_not_mem (target maxPos : Nat) (batch : List Nat)
    (h : target ∉ batch) : ∀ pos,
    countBatch target maxPos false pos batch = (.continueAt (pos + batch.length), batch) := by
  induction batch with
  | nil => intro pos; simp [countBatch]
  | cons pid rest ih =>
    intro pos
    have hne : ¬ pid = target := by rintro rfl; exact h (by simp)
    rw [countBatch, if_neg hne, if_neg (by simp)]
    rw [ih (fun hm => h (by simp [hm])) (pos + 1)]
    have harith : pos + 1 + rest.length = pos + (pid :: rest).length := by
      simp only [List.length_cons]; omega
    rw [harith]

theorem countBatch_capped_spec (target maxPos : Nat) (batch : List Nat)
    (h : target ∉ batch) : ∀ pos, pos < maxPos →
    (∀ p, (countBatch target maxPos true pos batch).1 ≠ .foundAt p) ∧
    (countBatch target maxPos true pos batch).2.length ≤ maxPos - pos ∧
    (∀ p', (countBatch target maxPos true pos batch).1 = .continueAt p' →
      p' = pos + (countBatch target maxPos true pos batch).2.length) := by
  induction batch with
  | nil =>
    intro pos _hpos
    refine ⟨by simp [countBatch], by simp [countBatch], ?_⟩
    intro p' hp'
    simp [countBatch] at hp' ⊢
    omega
  | cons pid rest ih =>
    intro pos hpos
    have hne : ¬ pid = target := by rintro rfl; exact h (by simp)
    by_cases hceil : maxPos ≤ pos + 1
    · rw [countBatch, if_neg hne, if_pos ⟨rfl, hceil⟩]
      refine ⟨by simp, by simp; omega, by simp⟩
    · have hlt : pos + 1 < maxPos := by omega
      have ihr := ih (fun hm => h (by simp [hm])) (pos + 1) hlt
      rw [countBatch, if_neg hne, if_neg (by simp; omega)]
      refine ⟨?_, ?_, ?_⟩
      · intro p hp
        exact ihr.1 p (by simpa using hp)
      · simp only [List.length_cons]
        have := ihr.2.1
        omega
      · intro p' hp'
        have := ihr.2.2 p' (by simpa using hp')
        simp only [List.length_cons]
        omega

theorem searchLoop_not_mem (target maxPos maxPages : Nat) (script : List (List Nat))
    (h : ∀ snap ∈ script, target ∉ snap) :
    ∀ seen pos pageNum emptyPages,
    (∀ p, (searchLoop target maxPos maxPages script seen pos pageNum emptyPages).1 ≠ .found p) ∧
    (searchLoop target maxPos maxPages script seen pos pageNum emptyPages).2.length
      ≤ maxPos - pos := by
  induction script with
  | nil => intro seen pos pageNum emptyPages; simp [searchLoop]
  | cons snap rest ih =>
    intro seen pos pageNum emptyPages
    rw [searchLoop]
    by_cases hcond : pos < maxPos ∧ pageNum < maxPages
    · rw [if_pos hcond]
      dsimp only
      by_cases hempty : (collectFromPage seen snap).1 = []
      · rw [if_pos hempty]
        by_cases he2 : 2 ≤ emptyPages + 1
        · rw [if_pos he2]; simp
        · rw [if_neg he2]
          exact ih (fun s hs => h s (by simp [hs])) _ pos (pageNum + 1) (emptyPages + 1)
      · rw [if_neg hempty]
        have htarget : target ∉ (collectFromPage seen snap).1 :=
          fun hm => h snap (by simp) (collectFromPage_subset _ _ _ hm)
        have hspec := countBatch_capped_spec target maxPos _ htarget pos hcond.1
        rcases hcb : countBatch target maxPos true pos (collectFromPage seen snap).1
          with ⟨r1, r2⟩
        rw [hcb] at hspec
        cases r1 with
        | foundAt p => exact absurd rfl (hspec.1 p)
        | ceilingHit =>
          refine ⟨by intro p hp; exact SearchOutcome.noConfusion hp, hspec.2.1⟩
        | continueAt pos' =>
          have ihres := ih (fun s hs => h s (by simp [hs])) (collectFromPage seen snap).2
            pos' (pageNum + 1) 0
          have hpos' : pos' = pos + r2.length := hspec.2.2 pos' rfl
          refine ⟨fun p hp => ihres.1 p hp, ?_⟩
          have h1 : r2.length ≤ maxPos - pos := hspec.2.1
          have h2 := ihres.2
          simp only [List.length_append]
          omega
    · rw [if_neg hcond]; simp

theorem find_position_target_absent_aux (target maxPos : Nat)
    (first : List Nat) (rest : List (List Nat))
    (h : ∀ snap ∈ first :: rest, target ∉ snap) (hf : ¬ first = []) :
    ((find_product_position target maxPos (first :: rest)).1 = .notFound ∨
      (find_product_position target maxPos (first :: rest)).1 = .loadError) ∧
    (find_product_position target maxPos (first :: rest)).2.length
      ≤ max maxPos (firstTwoNewCount (first :: rest)) := by
  have htarget1 : target ∉ (collectFromPage [] first).1 :=
    fun hm => h first (by simp) (collectFromPage_subset _ _ _ hm)
  have hprobe : target ∉ rest.headD [] := by
    cases rest with
    | nil => simp
    | cons a t => exact h a (by simp)
  have htarget2 : target ∉ (collectFromPage (collectFromPage [] first).2 (rest.headD [])).1 :=
    fun hm => hprobe (collectFromPage_subset _ _ _ hm)
  have hc1 := countBatch_uncapped_not_mem target maxPos _ htarget1 0
  have hc2 := countBatch_uncapped_not_mem target maxPos _ htarget2
    (0 + (collectFromPage [] first).1.length)
  have hloop := searchLoop_not_mem target maxPos (maxPos / 36 + 2) rest.tail
    (fun s hs => h s (by
      cases rest with
      | nil => simp at hs
      | cons a t => simp at hs; simp [hs]))
    (collectFromPage (collectFromPage [] first).2 (rest.headD [])).2
    (0 + (collectFromPage [] first).1.length
      + (collectFromPage (collectFromPage [] first).2 (rest.headD [])).1.length) 1 0
  simp only [find_product_position]
  rw [if_neg hf, hc1]
  dsimp only
  rw [hc2]
  dsimp only
  constructor
  · cases hout : (searchLoop target maxPos (maxPos / 36 + 2) rest.tail
      (collectFromPage (collectFromPage [] first).2 (rest.headD [])).2
      (0 + (collectFromPage [] first).1.length
        + (collectFromPage (collectFromPage [] first).2 (rest.headD [])).1.length) 1 0).1 with
    | found p => exact absurd hout (hloop.1 p)
    | notFound => exact Or.inl rfl
    | loadError => exact Or.inr rfl
  · have hlen := hloop.2
    simp only [List.length_append, firstTwoNewCount]
    rcases Nat.le_total maxPos
      ((collectFromPage [] first).1.length
        + (collectFromPage (collectFromPage [] first).2 (rest.headD [])).1.length)
      with hle | hle
    · apply le_max_of_le_right
      omega
    · apply le_max_of_le_left
      omega

theorem collectFromPage_empty_seen (pageIds : List Nat) (hd : pageIds.Nodup) :
    collectFromPage [] pageIds = (pageIds, pageIds) := by
  simp only [collectFromPage]
  rw [if_pos (by simp)]
  rw [collectNewIds_fresh [] pageIds hd (by intro x _; simp)]
  have hfilter : pageIds.filter (fun pid => !(List.contains [] pid)) = pageIds :=
    List.filter_eq_self.mpr (fun a _ => by simp [contains_eq_dec])
  rw [hfilter]
  simp

theorem range2000_contains_zero : (List.range 2000).contains 0 = true := by
  simp [contains_eq_dec, List.mem_range]

theorem collectFromPage_big_seen (pageIds : List Nat) (hd : pageIds.Nodup) :
    (collectFromPage (List.range 2000) pageIds).1 = pageIds := by
  simp only [collectFromPage]
  rw [if_neg (by simp)]
  rw [collectNewIds_fresh [] pageIds hd (by intro x _; simp)]

/-- Symbolic unfolding of `find_product_position` on a run whose first two
counting phases both fall through (no target hit there). -/
theorem find_position_phases_continue (target maxPos : Nat)
    (first : List Nat) (rest : List (List Nat)) (hf : ¬ first = [])
    (pos1 pos2 : Nat) (counted1 counted2 : List Nat)
    (h1 : countBatch target maxPos false 0 (collectFromPage [] first).1 =
      (.continueAt pos1, counted1))
    (h2 : countBatch target maxPos false pos1
      (collectFromPage (collectFromPage [] first).2 (rest.headD [])).1 =
      (.continueAt pos2, counted2)) :
    find_product_position target maxPos (first :: rest) =
      ((searchLoop target maxPos (maxPos / 36 + 2) rest.tail
          (collectFromPage (collectFromPage [] first).2 (rest.headD [])).2 pos2 1 0).1,
        counted1 ++ counted2 ++
          (searchLoop target maxPos (maxPos / 36 + 2) rest.tail
            (collectFromPage (collectFromPage [] first).2 (rest.headD [])).2 pos2 1 0).2) := by
  simp only [find_product_position]
  rw [if_neg hf, h1]
  dsimp only
  rw [h2]

/-- Symbolic unfolding of `find_product_position` on a run that finds the
target during the scroll-probe counting phase. -/
theorem find_position_phases_found_probe (target maxPos : Nat)
    (first : List Nat) (rest : List (List Nat)) (hf : ¬ first = [])
    (pos1 p : Nat) (counted1 counted2 : List Nat)
    (h1 : countBatch target maxPos false 0 (collectFromPage [] first).1 =
      (.continueAt pos1, counted1))
    (h2 : countBatch target maxPos false pos1
      (collectFromPage (collectFromPage [] first).2 (rest.headD [])).1 =
      (.foundAt p, counted2)) :
    find_product_position target maxPos (first :: rest) =
      (.found p, counted1 ++ counted2) := by
  simp only [find_product_position]
  rw [if_neg hf, h1]
  dsimp only
  rw [h2]

theorem range2000_ne_nil : ¬ List.range 2000 = [] := by
  simp [List.range_eq_nil]

theorem countBatch_first_phase_range :
    countBatch 5000 3000 false 0 (collectFromPage [] (List.range 2000)).1 =
      (.continueAt 2000, List.range 2000) := by
  rw [collectFromPage_empty_seen (List.range 2000) (List.nodup_range 2000)]
  have h := countBatch_uncapped_not_mem 5000 3000 (List.range 2000) (by simp) 0
  rw [List.length_range] at h
  simpa using h

/-- Evaluation of the run used against the dedup claim: first page delivers
2000 distinct identifiers, the scroll probe re-delivers identifier 0, the
target 5000 never appears. -/
theorem find_eval_dedup_break :
    find_product_position 5000 3000 [List.range 2000, [0]] =
      (.notFound, List.range 2000 ++ [0]) := by
  have h2 : countBatch 5000 3000 false 2000
      (collectFromPage (collectFromPage [] (List.range 2000)).2
        (([[0]] : List (List Nat)).headD [])).1 = (.continueAt 2001, [0]) := by
    rw [collectFromPage_empty_seen (List.range 2000) (List.nodup_range 2000)]
    have hp : (collectFromPage (List.range 2000) (([[0]] : List (List Nat)).headD [])).1
        = [0] := collectFromPage_big_seen [0] (by simp)
    rw [hp]
    decide
  rw [find_position_phases_continue 5000 3000 (List.range 2000) [[0]] range2000_ne_nil
    2000 2001 (List.range 2000) [0] countBatch_first_phase_range h2]
  dsimp only [List.tail]
  simp only [searchLoop]
  simp

/-- Evaluation of the run used against the short-circuit claim: first page
delivers 2000 distinct identifiers, the scroll probe re-delivers identifier 0
followed by the target 5000. -/
theorem find_eval_shortcircuit_break :
    find_product_position 5000 3000 [List.range 2000, [0, 5000]] =
      (.found 2002, List.range 2000 ++ [0, 5000]) := by
  have h2 : countBatch 5000 3000 false 2000
      (collectFromPage (collectFromPage [] (List.range 2000)).2
        (([[0, 5000]] : List (List Nat)).headD [])).1 = (.foundAt 2002, [0, 5000]) := by
    rw [collectFromPage_empty_seen (List.range 2000) (List.nodup_range 2000)]
    have hp : (collectFromPage (List.range 2000)
        (([[0, 5000]] : List (List Nat)).headD [])).1 = [0, 5000] :=
      collectFromPage_big_seen [0, 5000] (by simp)
    rw [hp]
    decide
  rw [find_position_phases_found_probe 5000 3000 (List.range 2000) [[0, 5000]]
    range2000_ne_nil 2000 2002 (List.range 2000) [0, 5000]
    countBatch_first_phase_range h2]

theorem uniqueFirstsAux_fresh_append (l : List Nat) :
    ∀ (seen rest : List Nat), l.Nodup → (∀ x ∈ l, x ∉ seen) →
    uniqueFirstsAux seen (l ++ rest) = l ++ uniqueFirstsAux (seen ++ l) rest := by
  induction l with
  | nil => intro seen rest _ _; simp
  | cons x l' ih =>
    intro seen rest hd hs
    have hx : seen.contains x = false := by
      simp only [contains_eq_dec, decide_eq_false_iff_not]
      exact hs x (by simp)
    rw [List.cons_append, uniqueFirstsAux, hx]
    rw [if_neg Bool.false_ne_true]
    rw [ih (seen ++ [x]) rest (List.nodup_cons.mp hd).2
      (fun y hy => by
        simp only [List.mem_append, List.mem_singleton]
        rintro (h | rfl)
        · exact hs y (by simp [hy]) h
        · exact (List.nodup_cons.mp hd).1 hy)]
    simp

theorem uniques_of_break_counted :
    uniqueFirsts (List.range 2000 ++ [0, 5000]) = List.range 2000 ++ [5000] := by
  unfold uniqueFirsts
  rw [uniqueFirstsAux_fresh_append (List.range 2000) [] [0, 5000]
    (List.nodup_range 2000) (by intro x _; simp)]
  have hc0 : ((([] : List Nat) ++ List.range 2000).contains 0) = true := by
    simp [contains_eq_dec, List.mem_range]
  have hc5 : ((([] : List Nat) ++ List.range 2000).contains 5000) = false := by
    simp [contains_eq_dec, List.mem_range]
  rw [uniqueFirstsAux, hc0, if_pos rfl]
  rw [uniqueFirstsAux, hc5, if_neg Bool.false_ne_true]
  rw [uniqueFirstsAux]

/-! ## Claim theorems -/

/-- C1: the dedup claim fails on the code.  In the run whose first page
delivers the 2000 distinct identifiers 0..1999 and whose scroll probe then
re-delivers identifier 0 (target 5000 absent, ceiling 3000), identifier 0
increments the position counter twice: once the seen set holds 2000
identifiers, `_collect_products_from_page` passes an empty seen list to the
JS filter and returns the already-counted identifier as new again. -/
theorem C1_dedup_bug :
    (find_product_position 5000 3000 [List.range 2000, [0]]).2.count 0 = 2 ∧
    (0 : Nat) ∈ List.range 2000 := by
  constructor
  · rw [find_eval_dedup_break]
    dsimp only
    rw [List.count_append]
    rw [List.count_eq_one_of_mem (List.nodup_range 2000) (by simp)]
    simp
  · simp

/-- C2 counterexample: with ceiling 1 and a target absent from the listing,
the run returns the not-found outcome having counted 2 identifiers, not
exactly 1: the first page's batch is counted in full without a ceiling
check. -/
theorem C2_ceiling_counterexample :
    (99 : Nat) ∉ ([10, 20] : List Nat) ∧
    (find_product_position 99 1 [[10, 20]]).1 = .notFound ∧
    ¬ (find_product_position 99 1 [[10, 20]]).2.length = 1 := by decide

/-- C2 (amended): when the target never appears in any extracted snapshot the
run never returns a found position (it ends in the not-found return, or the
page-load error when no first products appear), and the number of counted
identifiers is bounded by `max maxPos (first page batch + probe batch)`: the
ceiling is enforced only inside the main loop, the first page and the scroll
probe are counted in full, and listing exhaustion can end the run with fewer
than `maxPos` counted. -/
theorem C2_ceiling_amended (target maxPos : Nat) (script : List (List Nat))
    (h : ∀ snap ∈ script, target ∉ snap) :
    ((find_product_position target maxPos script).1 = .notFound ∨
      (find_product_position target maxPos script).1 = .loadError) ∧
    (find_product_position target maxPos script).2.length
      ≤ max maxPos (firstTwoNewCount script) := by
  cases script with
  | nil => simp [find_product_position, firstTwoNewCount]
  | cons first rest =>
    by_cases hf : first = []
    · subst hf
      simp [find_product_position, firstTwoNewCount]
    · exact find_position_target_absent_aux target maxPos first rest h hf

/-- Witness for the amended ceiling theorem at a concrete run. -/
theorem C2_ceiling_amended_witness :
    ((99 : Nat) ∉ ([10, 20] : List Nat) ∧ (99 : Nat) ∉ ([30] : List Nat)) ∧
    (((find_product_position 99 50 [[10, 20], [30]]).1 = .notFound ∨
      (find_product_position 99 50 [[10, 20], [30]]).1 = .loadError) ∧
    (find_product_position 99 50 [[10, 20], [30]]).2.length
      ≤ max 50 (firstTwoNewCount [[10, 20], [30]])) :=
  ⟨by decide, C2_ceiling_amended 99 50 [[10, 20], [30]] (by decide)⟩

/-- C3: the short-circuit claim fails on the code in its "returns k for the
k-th unique identifier" part.  In the run whose first page delivers the
identifiers 0..1999 and whose probe re-delivers 0 followed by the target 5000
(ceiling 3000), the target is the 2001st unique identifier encountered (last
of the 2001 first occurrences), yet the function returns position 2002: the
re-delivered identifier 0 was counted a second time. -/
theorem C3_short_circuit_bug :
    (find_product_position 5000 3000 [List.range 2000, [0, 5000]]).1 = .found 2002 ∧
    uniqueFirsts (find_product_position 5000 3000 [List.range 2000, [0, 5000]]).2
      = List.range 2000 ++ [5000] ∧
    (List.range 2000 ++ [5000]).length = 2001 := by
  refine ⟨?_, ?_, by simp⟩
  · rw [find_eval_shortcircuit_break]
  · rw [find_eval_shortcircuit_break]
    exact uniques_of_break_counted

/-- C8: a failed title read, a failed heading read, and a failed combined
page evaluation all classify the page as Normal - neither captcha nor
blocked. -/
theorem C8_fail_open :
    is_captcha_page none = false ∧
    is_blocked_page none = false ∧
    check_page_status none = (false, false) :=
  ⟨rfl, rfl, rfl⟩

/-! ## Lemmas for the consolidation model -/

theorem getD_set_self {α : Type} (l : List α) (i : Nat) (b d : α) (h : i < l.length) :
    (l.set i b).getD i d = b := by
  induction l generalizing i with
  | nil => simp at h
  | cons x xs ih =>
    cases i with
    | zero => simp
    | succ n =>
      rw [List.set_cons_succ, List.getD_cons_succ]
      exact ih n (by simpa using h)

theorem getD_set_ne {α : Type} (l : List α) (i j : Nat) (b d : α) (h : i ≠ j) :
    (l.set i b).getD j d = l.getD j d := by
  induction l generalizing i j with
  | nil => simp [List.set]
  | cons x xs ih =>
    cases i with
    | zero =>
      cases j with
      | zero => exact absurd rfl h
      | succ m => simp
    | succ n =>
      cases j with
      | zero => simp
      | succ m =>
        rw [List.set_cons_succ, List.getD_cons_succ, List.getD_cons_succ]
        exact ih n m (by omega)

theorem getD_eraseIdx_lt {α : Type} (l : List α) (i j : Nat) (d : α) (h : j < i) :
    (l.eraseIdx i).getD j d = l.getD j d := by
  induction l generalizing i j with
  | nil => simp [List.eraseIdx]
  | cons x xs ih =>
    cases i with
    | zero => omega
    | succ n =>
      cases j with
      | zero => simp [List.eraseIdx]
      | succ m =>
        rw [List.eraseIdx_cons_succ, List.getD_cons_succ, List.getD_cons_succ]
        exact ih n m (by omega)

theorem countP_set_db {α : Type} (p : α → Bool) (l : List α) (i : Nat) (b d : α)
    (h : i < l.length) :
    List.countP p (l.set i b) + (if p (l.getD i d) then 1 else 0)
      = List.countP p l + (if p b then 1 else 0) := by
  induction l generalizing i with
  | nil => simp at h
  | cons x xs ih =>
    cases i with
    | zero => simp [List.countP_cons]; omega
    | succ n =>
      rw [List.set_cons_succ, List.getD_cons_succ, List.countP_cons, List.countP_cons]
      have := ih n (by simpa using h)
      omega

theorem countP_eraseIdx_db {α : Type} (p : α → Bool) (l : List α) (i : Nat) (d : α)
    (h : i < l.length) :
    List.countP p l = List.countP p (l.eraseIdx i) + (if p (l.getD i d) then 1 else 0) := by
  induction l generalizing i with
  | nil => simp at h
  | cons x xs ih =>
    cases i with
    | zero => simp [List.eraseIdx, List.countP_cons]
    | succ n =>
      rw [List.eraseIdx_cons_succ, List.getD_cons_succ, List.countP_cons, List.countP_cons]
      have := ih n (by simpa using h)
      omega

theorem getD_map_of_lt {α β : Type} (f : α → β) (l : List α) (j : Nat) (d : β) (d2 : α)
    (h : j < l.length) : (l.map f).getD j d = f (l.getD j d2) := by
  induction l generalizing j with
  | nil => simp at h
  | cons x xs ih =>
    cases j with
    | zero => simp
    | succ n =>
      rw [List.map_cons, List.getD_cons_succ, List.getD_cons_succ]
      exact ih n (by simpa using h)

theorem hourlyColsAux_mem (dateStr : String) (headers : List String) :
    ∀ i c, c ∈ hourlyColsAux dateStr headers i →
      i < c ∧ c ≤ i + headers.length ∧
      matchesHourly dateStr (headers.getD (c - i - 1) "") = true := by
  induction headers with
  | nil => intro i c hc; simp [hourlyColsAux] at hc
  | cons h rest ih =>
    intro i c hc
    rw [hourlyColsAux] at hc
    by_cases hm : matchesHourly dateStr h = true
    · rw [if_pos hm] at hc
      rcases List.mem_cons.mp hc with rfl | hc'
      · refine ⟨by omega, by simp, ?_⟩
        have he : i + 1 - i - 1 = 0 := by omega
        rw [he, List.getD_cons_zero]
        exact hm
      · obtain ⟨h1, h2, h3⟩ := ih (i + 1) c hc'
        refine ⟨by omega, by simp; omega, ?_⟩
        have he : c - i - 1 = (c - (i + 1) - 1) + 1 := by omega
        rw [he, List.getD_cons_succ]
        exact h3
    · rw [if_neg hm] at hc
      obtain ⟨h1, h2, h3⟩ := ih (i + 1) c hc
      refine ⟨by omega, by simp; omega, ?_⟩
      have he : c - i - 1 = (c - (i + 1) - 1) + 1 := by omega
      rw [he, List.getD_cons_succ]
      exact h3

theorem hourlyColsAux_pairwise (dateStr : String) (headers : List String) :
    ∀ i, List.Pairwise (· < ·) (hourlyColsAux dateStr headers i) := by
  induction headers with
  | nil => intro i; simp [hourlyColsAux]
  | cons h rest ih =>
    intro i
    rw [hourlyColsAux]
    by_cases hm : matchesHourly dateStr h = true
    · rw [if_pos hm]
      refine List.pairwise_cons.mpr ⟨?_, ih (i + 1)⟩
      intro c hc
      exact (hourlyColsAux_mem dateStr rest (i + 1) c hc).1
    · rw [if_neg hm]
      exact ih (i + 1)

theorem hourlyColsAux_length (dateStr : String) (headers : List String) :
    ∀ i, (hourlyColsAux dateStr headers i).length
      = List.countP (fun h => matchesHourly dateStr h) headers := by
  induction headers with
  | nil => intro i; simp [hourlyColsAux]
  | cons h rest ih =>
    intro i
    rw [hourlyColsAux, List.countP_cons]
    by_cases hm : matchesHourly dateStr h = true
    · rw [if_pos hm]
      simp [ih (i + 1), hm]
    · rw [if_neg hm]
      simp [ih (i + 1), hm]

theorem dropExact_append_one (l : List Char) (x : Char) : dropExact (l ++ [x]) l = none := by
  induction l with
  | nil => rfl
  | cons c cs ih =>
    rw [List.cons_append, dropExact, if_pos rfl]
    exact ih

theorem matchesHourly_self (d : String) : matchesHourly d d = false := by
  unfold matchesHourly
  rw [dropExact_append_one]

theorem foldl_min_le_init (xs : List Nat) : ∀ a, xs.foldl min a ≤ a := by
  induction xs with
  | nil => intro a; simp
  | cons x xs ih =>
    intro a
    rw [List.foldl_cons]
    exact le_trans (ih (min a x)) (min_le_left a x)

theorem foldl_min_le_mem (xs : List Nat) : ∀ a x, x ∈ xs → xs.foldl min a ≤ x := by
  induction xs with
  | nil => intro a x hx; simp at hx
  | cons y ys ih =>
    intro a x hx
    rw [List.foldl_cons]
    rcases List.mem_cons.mp hx with rfl | hx'
    · exact le_trans (foldl_min_le_init ys (min a x)) (min_le_right a x)
    · exact ih (min a y) x hx'

theorem minList_le (l : List Nat) : ∀ x ∈ l, minList l ≤ x := by
  cases l with
  | nil => intro x hx; simp at hx
  | cons y ys =>
    intro x hx
    rcases List.mem_cons.mp hx with rfl | hx'
    · exact foldl_min_le_init ys x
    · exact foldl_min_le_mem ys y x hx'

theorem foldl_min_mem (xs : List Nat) : ∀ a, xs.foldl min a ∈ a :: xs := by
  induction xs with
  | nil => intro a; simp
  | cons x xs ih =>
    intro a
    rw [List.foldl_cons]
    rcases List.mem_cons.mp (ih (min a x)) with h | h
    · rcases min_choice a x with hc | hc
      · exact List.mem_cons.mpr (Or.inl (h.trans hc))
      · exact List.mem_cons.mpr (Or.inr (List.mem_cons.mpr (Or.inl (h.trans hc))))
    · exact List.mem_cons.mpr (Or.inr (List.mem_cons.mpr (Or.inr h)))

theorem minList_mem (l : List Nat) (h : ¬ l = []) : minList l ∈ l := by
  cases l with
  | nil => exact absurd rfl h
  | cons y ys => exact foldl_min_mem ys y

theorem insertDesc_small (x : Nat) (l : List Nat) (h : ∀ y ∈ l, x < y) :
    insertDesc x l = l ++ [x] := by
  induction l with
  | nil => rfl
  | cons y ys ih =>
    rw [insertDesc]
    rw [if_neg (by have := h y (by simp); omega)]
    rw [ih (fun z hz => h z (by simp [hz]))]
    rfl

theorem sortDesc_of_ascending (l : List Nat) (h : List.Pairwise (· < ·) l) :
    sortDesc l = l.reverse := by
  induction l with
  | nil => rfl
  | cons x xs ih =>
    have hx : ∀ y ∈ xs.reverse, x < y := by
      intro y hy
      exact (List.pairwise_cons.mp h).1 y (List.mem_reverse.mp hy)
    simp only [sortDesc] at ih ⊢
    rw [List.foldr_cons, ih (List.pairwise_cons.mp h).2]
    rw [insertDesc_small x xs.reverse hx]
    simp

theorem asc_count_bound (cs : List Nat) : ∀ c0 L : Nat, List.Pairwise (· < ·) cs →
    (∀ c ∈ cs, c0 < c ∧ c ≤ L) → c0 + cs.length ≤ L ∨ cs = [] := by
  induction cs with
  | nil => intro c0 L _ _; exact Or.inr rfl
  | cons c cs ih =>
    intro c0 L hp hb
    left
    have hc := hb c (by simp)
    rcases ih c L (List.pairwise_cons.mp hp).2
      (fun c' hc' => ⟨(List.pairwise_cons.mp hp).1 c' hc', (hb c' (by simp [hc'])).2⟩)
      with h | rfl
    · simp only [List.length_cons]
      omega
    · simp only [List.length_cons, List.length_nil]
      omega

theorem eraseFold_getD {α : Type} (cs : List Nat) (l : List α) (j : Nat) (d : α)
    (hlb : ∀ c ∈ cs, j + 1 < c) :
    (cs.foldr (fun c acc => acc.eraseIdx (c - 1)) l).getD j d = l.getD j d := by
  induction cs with
  | nil => rfl
  | cons c cs ih =>
    rw [List.foldr_cons]
    rw [getD_eraseIdx_lt _ _ _ _ (by have := hlb c (by simp); omega)]
    exact ih (fun c' hc' => hlb c' (by simp [hc']))

theorem eraseFold_length {α : Type} (cs : List Nat) (l : List α)
    (hasc : List.Pairwise (· < ·) cs) (hvalid : ∀ c ∈ cs, 1 ≤ c ∧ c ≤ l.length) :
    (cs.foldr (fun c acc => acc.eraseIdx (c - 1)) l).length + cs.length = l.length := by
  induction cs with
  | nil => simp
  | cons c cs ih =>
    rw [List.foldr_cons]
    have hinner := ih (List.pairwise_cons.mp hasc).2 (fun c' hc' => hvalid c' (by simp [hc']))
    have hcb := hvalid c (by simp)
    have hbound : c + cs.length ≤ l.length := by
      rcases asc_count_bound cs c l.length (List.pairwise_cons.mp hasc).2
        (fun c' hc' => ⟨(List.pairwise_cons.mp hasc).1 c' hc', (hvalid c' (by simp [hc'])).2⟩)
        with h | rfl
      · exact h
      · simpa using hcb.2
    have hlt : c - 1 < (cs.foldr (fun c acc => acc.eraseIdx (c - 1)) l).length := by omega
    rw [List.length_eraseIdx, if_pos hlt]
    simp only [List.length_cons]
    omega

theorem eraseFold_countP {α : Type} (p : α → Bool) (cs : List Nat) (l : List α) (d : α)
    (hasc : List.Pairwise (· < ·) cs) (hvalid : ∀ c ∈ cs, 1 ≤ c ∧ c ≤ l.length)
    (hmatch : ∀ c ∈ cs, p (l.getD (c - 1) d) = true) :
    List.countP p l
      = List.countP p (cs.foldr (fun c acc => acc.eraseIdx (c - 1)) l) + cs.length := by
  induction cs with
  | nil => simp
  | cons c cs ih =>
    rw [List.foldr_cons]
    have hinner := ih (List.pairwise_cons.mp hasc).2
      (fun c' hc' => hvalid c' (by simp [hc']))
      (fun c' hc' => hmatch c' (by simp [hc']))
    have hcb := hvalid c (by simp)
    have hg : (cs.foldr (fun c acc => acc.eraseIdx (c - 1)) l).getD (c - 1) d
        = l.getD (c - 1) d :=
      eraseFold_getD cs l (c - 1) d
        (fun c' hc' => by
          have := (List.pairwise_cons.mp hasc).1 c' hc'
          omega)
    have hbound : c + cs.length ≤ l.length := by
      rcases asc_count_bound cs c l.length (List.pairwise_cons.mp hasc).2
        (fun c' hc' => ⟨(List.pairwise_cons.mp hasc).1 c' hc', (hvalid c' (by simp [hc'])).2⟩)
        with h | rfl
      · exact h
      · simpa using hcb.2
    have hlenInner := eraseFold_length cs l (List.pairwise_cons.mp hasc).2
      (fun c' hc' => hvalid c' (by simp [hc']))
    have hlt : c - 1 < (cs.foldr (fun c acc => acc.eraseIdx (c - 1)) l).length := by omega
    have hstep := countP_eraseIdx_db p (cs.foldr (fun c acc => acc.eraseIdx (c - 1)) l)
      (c - 1) d hlt
    rw [hg] at hstep
    rw [hmatch c (by simp), if_pos rfl] at hstep
    simp only [List.length_cons]
    omega

theorem eraseFold_countP_keep {α : Type} (p : α → Bool) (cs : List Nat) (l : List α) (d : α)
    (hasc : List.Pairwise (· < ·) cs) (hvalid : ∀ c ∈ cs, 1 ≤ c ∧ c ≤ l.length)
    (hmiss : ∀ c ∈ cs, p (l.getD (c - 1) d) = false) :
    List.countP p (cs.foldr (fun c acc => acc.eraseIdx (c - 1)) l) = List.countP p l := by
  induction cs with
  | nil => rfl
  | cons c cs ih =>
    rw [List.foldr_cons]
    have hinner := ih (List.pairwise_cons.mp hasc).2
      (fun c' hc' => hvalid c' (by simp [hc']))
      (fun c' hc' => hmiss c' (by simp [hc']))
    have hcb := hvalid c (by simp)
    have hg : (cs.foldr (fun c acc => acc.eraseIdx (c - 1)) l).getD (c - 1) d
        = l.getD (c - 1) d :=
      eraseFold_getD cs l (c - 1) d
        (fun c' hc' => by
          have := (List.pairwise_cons.mp hasc).1 c' hc'
          omega)
    have hbound : c + cs.length ≤ l.length := by
      rcases asc_count_bound cs c l.length (List.pairwise_cons.mp hasc).2
        (fun c' hc' => ⟨(List.pairwise_cons.mp hasc).1 c' hc', (hvalid c' (by simp [hc'])).2⟩)
        with h | rfl
      · exact h
      · simpa using hcb.2
    have hlenInner := eraseFold_length cs l (List.pairwise_cons.mp hasc).2
      (fun c' hc' => hvalid c' (by simp [hc']))
    have hlt : c - 1 < (cs.foldr (fun c acc => acc.eraseIdx (c - 1)) l).length := by omega
    have hstep := countP_eraseIdx_db p (cs.foldr (fun c acc => acc.eraseIdx (c - 1)) l)
      (c - 1) d hlt
    rw [hg] at hstep
    rw [hmiss c (by simp)] at hstep
    simp only [if_neg Bool.false_ne_true] at hstep
    omega

theorem rowValues_go (row : List String) (hs : List Nat) :
    ∀ acc : List Int,
    hs.foldl
      (fun vs c =>
        if c ≤ row.length then
          match parseCell (row.getD (c - 1) "") with
          | some v => vs ++ [v]
          | none => vs
        else vs)
      acc
      = acc ++ (hs.map (fun c => row.getD (c - 1) "")).filterMap parseCell := by
  induction hs with
  | nil => intro acc; simp
  | cons c hs ih =>
    intro acc
    rw [List.foldl_cons, List.map_cons, List.filterMap_cons]
    by_cases hcl : c ≤ row.length
    · rw [if_pos hcl]
      cases hp : parseCell (row.getD (c - 1) "") with
      | none =>
        rw [ih]
        try simp [hp]
      | some v =>
        rw [ih]
        try simp [hp]
    · rw [if_neg hcl]
      have hdef : row.getD (c - 1) "" = "" := List.getD_eq_default _ _ (by omega)
      rw [ih, hdef]
      simp [parseCell]

theorem rowValues_eq_filterMap (hs : List Nat) (row : List String) :
    rowValues hs row = (hs.map (fun c => row.getD (c - 1) "")).filterMap parseCell := by
  unfold rowValues
  simpa using rowValues_go row hs []

theorem avgCell_eq_spec (hs : List Nat) (row : List String) :
    avgCell hs row = specDailyValue (hs.map (fun c => row.getD (c - 1) "")) := by
  simp only [avgCell, specDailyValue, rowValues_eq_filterMap]

theorem setCellPadded_getD_self (row : List String) (c : Nat) (v : String) (hc : 1 ≤ c) :
    (setCellPadded row c v).getD (c - 1) "" = v := by
  unfold setCellPadded
  apply getD_set_self
  rw [List.length_append, List.length_replicate]
  omega

theorem foldr_delete_components (cs : List Nat) (s : Sheet) :
    cs.foldr (fun c sh => deleteColumn sh c) s =
      { headers := cs.foldr (fun c l => l.eraseIdx (c - 1)) s.headers
        rows := s.rows.map (fun row => cs.foldr (fun c l => l.eraseIdx (c - 1)) row) } := by
  induction cs with
  | nil => simp
  | cons c cs ih =>
    rw [List.foldr_cons, ih]
    simp [deleteColumn, List.map_map, Function.comp]

theorem consolidate_multi (s : Sheet) (dateStr : String)
    (hlen : 2 ≤ (get_hourly_columns_for_date s.headers dateStr).length) :
    consolidate_daily_results s dateStr =
      (true,
        ((sortDesc (get_hourly_columns_for_date s.headers dateStr)).filter
            (fun c => c != minList (get_hourly_columns_for_date s.headers dateStr))).foldl
          deleteColumn
          { headers := s.headers.set
              (minList (get_hourly_columns_for_date s.headers dateStr) - 1) dateStr
            rows := s.rows.map (fun row =>
              setCellPadded row (minList (get_hourly_columns_for_date s.headers dateStr))
                (avgCell (get_hourly_columns_for_date s.headers dateStr) row)) }) := by
  unfold consolidate_daily_results
  cases hseq : get_hourly_columns_for_date s.headers dateStr with
  | nil => rw [hseq] at hlen; simp at hlen
  | cons c1 t =>
    cases t with
    | nil => rw [hseq] at hlen; simp at hlen
    | cons c2 cs => rfl

/-- C4: consolidating a date with at least two hourly buckets reports True and
replaces them by a single daily bucket: the date header sits at the leftmost
hourly position, no hourly header for that date survives, the date header
occurs exactly once, the header row shrinks by the number of removed buckets,
and each data row's daily cell holds exactly the specification's value - the
rounded arithmetic mean of the row's numeric hourly values with the ceiling
sentinel read as 1000, re-emitted as the sentinel exactly when the mean
reaches the ceiling. -/
theorem C4_consolidation_mean (s : Sheet) (dateStr : String) (j : Nat)
    (hlen : 2 ≤ (get_hourly_columns_for_date s.headers dateStr).length)
    (hdate : dateStr ∉ s.headers)
    (hj : j < s.rows.length) :
    (consolidate_daily_results s dateStr).1 = true ∧
    (consolidate_daily_results s dateStr).2.headers.getD
      (minList (get_hourly_columns_for_date s.headers dateStr) - 1) "" = dateStr ∧
    List.countP (fun h => matchesHourly dateStr h)
      (consolidate_daily_results s dateStr).2.headers = 0 ∧
    List.count dateStr (consolidate_daily_results s dateStr).2.headers = 1 ∧
    (consolidate_daily_results s dateStr).2.headers.length
      + ((get_hourly_columns_for_date s.headers dateStr).length - 1) = s.headers.length ∧
    (consolidate_daily_results s dateStr).2.rows.length = s.rows.length ∧
    ((consolidate_daily_results s dateStr).2.rows.getD j []).getD
      (minList (get_hourly_columns_for_date s.headers dateStr) - 1) ""
      = specDailyValue ((get_hourly_columns_for_date s.headers dateStr).map
          (fun c => (s.rows.getD j []).getD (c - 1) "")) := by
  rw [consolidate_multi s dateStr hlen]
  set hs := get_hourly_columns_for_date s.headers dateStr with hhs
  set ip := minList hs with hip
  have hasc : List.Pairwise (· < ·) hs := by
    rw [hhs]; exact hourlyColsAux_pairwise dateStr s.headers 0
  have hmem : ∀ c ∈ hs, 0 < c ∧ c ≤ s.headers.length ∧
      matchesHourly dateStr (s.headers.getD (c - 1) "") = true := by
    intro c hc
    rw [hhs] at hc
    have h3 := hourlyColsAux_mem dateStr s.headers 0 c hc
    refine ⟨by omega, by omega, ?_⟩
    have he : c - 1 = c - 0 - 1 := by omega
    rw [he]
    exact h3.2.2
  have hne : ¬ hs = [] := by
    intro h
    rw [h] at hlen
    simp at hlen
  have hip_mem : ip ∈ hs := by rw [hip]; exact minList_mem hs hne
  have hip_le : ∀ c ∈ hs, ip ≤ c := by rw [hip]; exact minList_le hs
  have hip_pos : 0 < ip := (hmem ip hip_mem).1
  have hip_len : ip ≤ s.headers.length := (hmem ip hip_mem).2.1
  have hnodup : hs.Nodup := List.Pairwise.imp (fun hab => Nat.ne_of_lt hab) hasc
  have hfmem : ∀ c ∈ hs.filter (fun c => c != ip), c ∈ hs ∧ ip < c := by
    intro c hc
    obtain ⟨hin, hbne⟩ := List.mem_filter.mp hc
    have hne' : c ≠ ip := bne_iff_ne.mp hbne
    exact ⟨hin, lt_of_le_of_ne (hip_le c hin) (Ne.symm hne')⟩
  have hasc' : List.Pairwise (· < ·) (hs.filter (fun c => c != ip)) :=
    List.Pairwise.filter _ hasc
  have hlenf : (hs.filter (fun c => c != ip)).length + 1 = hs.length := by
    have he : hs.erase ip = hs.filter (fun c => c != ip) := hnodup.erase_eq_filter ip
    rw [← he, List.length_erase_of_mem hip_mem]
    omega
  have hvalid : ∀ c ∈ hs.filter (fun c => c != ip),
      1 ≤ c ∧ c ≤ (s.headers.set (ip - 1) dateStr).length := by
    intro c hc
    obtain ⟨hin, _⟩ := hfmem c hc
    refine ⟨(hmem c hin).1, ?_⟩
    rw [List.length_set]
    exact (hmem c hin).2.1
  have hH1get : ∀ c ∈ hs.filter (fun c => c != ip),
      (s.headers.set (ip - 1) dateStr).getD (c - 1) "" = s.headers.getD (c - 1) "" := by
    intro c hc
    obtain ⟨_, hgt⟩ := hfmem c hc
    exact getD_set_ne _ _ _ _ _ (by omega)
  have hmatchH1 : ∀ c ∈ hs.filter (fun c => c != ip),
      matchesHourly dateStr ((s.headers.set (ip - 1) dateStr).getD (c - 1) "") = true := by
    intro c hc
    rw [hH1get c hc]
    exact (hmem c ((hfmem c hc).1)).2.2
  have hcountBase : List.countP (fun h => matchesHourly dateStr h) s.headers
      = hs.length := by
    rw [hhs]
    exact (hourlyColsAux_length dateStr s.headers 0).symm
  have hsetlt : ip - 1 < s.headers.length := by omega
  have hcountH1 : List.countP (fun h => matchesHourly dateStr h)
      (s.headers.set (ip - 1) dateStr) + 1 = hs.length := by
    have hdb := countP_set_db (fun h => matchesHourly dateStr h) s.headers
      (ip - 1) dateStr "" hsetlt
    simp only [] at hdb
    simp only [(hmem ip hip_mem).2.2, matchesHourly_self] at hdb
    simp at hdb
    omega
  have hcountF : List.countP (fun h => matchesHourly dateStr h)
      ((hs.filter (fun c => c != ip)).foldr (fun c l => l.eraseIdx (c - 1))
        (s.headers.set (ip - 1) dateStr)) = 0 := by
    have h := eraseFold_countP (fun h => matchesHourly dateStr h)
      (hs.filter (fun c => c != ip)) (s.headers.set (ip - 1) dateStr) ""
      hasc' hvalid hmatchH1
    omega
  have hgetne_aux : ∀ c, c ∈ hs →
      (s.headers.getD (c - 1) "" == dateStr) = false := by
    intro c hc
    by_contra hcon
    simp only [Bool.not_eq_false] at hcon
    have heq := eq_of_beq hcon
    have hm := (hmem c hc).2.2
    rw [heq, matchesHourly_self] at hm
    exact Bool.false_ne_true hm
  have hbeqF : ∀ c ∈ hs.filter (fun c => c != ip),
      ((s.headers.set (ip - 1) dateStr).getD (c - 1) "" == dateStr) = false := by
    intro c hc
    rw [hH1get c hc]
    exact hgetne_aux c ((hfmem c hc).1)
  have hcount1 : List.count dateStr ((hs.filter (fun c => c != ip)).foldr
      (fun c l => l.eraseIdx (c - 1)) (s.headers.set (ip - 1) dateStr)) = 1 := by
    rw [List.count_eq_countP]
    have hkeep := eraseFold_countP_keep (fun h => h == dateStr)
      (hs.filter (fun c => c != ip)) (s.headers.set (ip - 1) dateStr) ""
      hasc' hvalid hbeqF
    rw [hkeep]
    have hdb := countP_set_db (fun h => h == dateStr) s.headers (ip - 1) dateStr "" hsetlt
    have hbase : List.countP (fun h => h == dateStr) s.headers = 0 := by
      rw [← List.count_eq_countP]
      exact List.count_eq_zero.mpr hdate
    simp only [] at hdb
    simp only [hgetne_aux ip hip_mem, hbase, beq_self_eq_true] at hdb
    simp at hdb
    exact hdb
  have hgetF : ((hs.filter (fun c => c != ip)).foldr (fun c l => l.eraseIdx (c - 1))
      (s.headers.set (ip - 1) dateStr)).getD (ip - 1) "" = dateStr := by
    rw [eraseFold_getD _ _ _ _ (fun c hc => by have := (hfmem c hc).2; omega)]
    exact getD_set_self _ _ _ _ hsetlt
  have hlenF : ((hs.filter (fun c => c != ip)).foldr (fun c l => l.eraseIdx (c - 1))
      (s.headers.set (ip - 1) dateStr)).length + (hs.length - 1) = s.headers.length := by
    have h := eraseFold_length (hs.filter (fun c => c != ip))
      (s.headers.set (ip - 1) dateStr) hasc' hvalid
    rw [List.length_set] at h
    omega
  have hsortd : sortDesc hs = hs.reverse := sortDesc_of_ascending hs hasc
  rw [hsortd, List.filter_reverse, List.foldl_reverse, foldr_delete_components]
  refine ⟨rfl, hgetF, hcountF, hcount1, hlenF, by simp, ?_⟩
  have hmm1 : ((s.rows.map (fun row => setCellPadded row ip (avgCell hs row))).map
      (fun row => (hs.filter (fun c => c != ip)).foldr (fun c l => l.eraseIdx (c - 1)) row)).getD j []
      = (hs.filter (fun c => c != ip)).foldr (fun c l => l.eraseIdx (c - 1))
          (setCellPadded (s.rows.getD j []) ip (avgCell hs (s.rows.getD j []))) := by
    rw [List.map_map]
    exact getD_map_of_lt _ _ _ _ [] hj
  rw [hmm1]
  rw [eraseFold_getD _ _ _ _ (fun c hc => by have := (hfmem c hc).2; omega)]
  rw [setCellPadded_getD_self _ _ _ hip_pos]
  exact avgCell_eq_spec hs (s.rows.getD j [])


/-- Witness for the consolidation theorem: the spec's example row 5, 15,
1000+ consolidates to the daily value 340. -/
theorem C4_consolidation_mean_witness :
    (2 ≤ (get_hourly_columns_for_date exampleSheet.headers ("28.01")).length ∧
      "28.01" ∉ exampleSheet.headers ∧ 0 < exampleSheet.rows.length) ∧
    ((consolidate_daily_results exampleSheet ("28.01")).1 = true ∧
      (consolidate_daily_results exampleSheet ("28.01")).2.headers.getD
        (minList (get_hourly_columns_for_date exampleSheet.headers ("28.01")) - 1) ""
        = "28.01" ∧
      List.countP (fun h => matchesHourly ("28.01") h)
        (consolidate_daily_results exampleSheet ("28.01")).2.headers = 0 ∧
      List.count ("28.01") (consolidate_daily_results exampleSheet ("28.01")).2.headers = 1 ∧
      (consolidate_daily_results exampleSheet ("28.01")).2.headers.length
        + ((get_hourly_columns_for_date exampleSheet.headers ("28.01")).length - 1)
        = exampleSheet.headers.length ∧
      (consolidate_daily_results exampleSheet ("28.01")).2.rows.length
        = exampleSheet.rows.length ∧
      ((consolidate_daily_results exampleSheet ("28.01")).2.rows.getD 0 []).getD
        (minList (get_hourly_columns_for_date exampleSheet.headers ("28.01")) - 1) ""
        = specDailyValue ((get_hourly_columns_for_date exampleSheet.headers ("28.01")).map
            (fun c => (exampleSheet.rows.getD 0 []).getD (c - 1) ""))) ∧
    specDailyValue ["5", "15", "1000+"] = "340" :=
  ⟨by decide,
    C4_consolidation_mean exampleSheet ("28.01") 0 (by decide) (by decide) (by decide),
    by decide⟩

/-- C7: consolidation with no hourly bucket for the date (in particular a date
already consolidated to a single daily bucket - the daily header never matches
the hourly pattern) performs no header or cell change and reports False; with
exactly one hourly bucket it reports True, renames only that column's header
to the date, and leaves every data cell unchanged. -/
theorem C7_consolidation_noop_and_rename (s0 s1 : Sheet) (dateStr : String) (c : Nat)
    (h0 : get_hourly_columns_for_date s0.headers dateStr = [])
    (h1 : get_hourly_columns_for_date s1.headers dateStr = [c]) :
    consolidate_daily_results s0 dateStr = (false, s0) ∧
    (consolidate_daily_results s1 dateStr).1 = true ∧
    (consolidate_daily_results s1 dateStr).2.rows = s1.rows ∧
    (consolidate_daily_results s1 dateStr).2.headers = s1.headers.set (c - 1) dateStr ∧
    matchesHourly dateStr dateStr = false := by
  refine ⟨?_, ?_, ?_, ?_, matchesHourly_self dateStr⟩
  · unfold consolidate_daily_results
    rw [h0]
  · unfold consolidate_daily_results
    rw [h1]
  · unfold consolidate_daily_results
    rw [h1]
  · unfold consolidate_daily_results
    rw [h1]



/-- Witness for the consolidation no-op and rename theorem. -/
theorem C7_consolidation_noop_and_rename_witness :
    (get_hourly_columns_for_date exampleDailySheet.headers ("28.01") = [] ∧
      get_hourly_columns_for_date exampleHourlySheet.headers ("28.01") = [4]) ∧
    (consolidate_daily_results exampleDailySheet ("28.01") = (false, exampleDailySheet) ∧
      (consolidate_daily_results exampleHourlySheet ("28.01")).1 = true ∧
      (consolidate_daily_results exampleHourlySheet ("28.01")).2.rows
        = exampleHourlySheet.rows ∧
      (consolidate_daily_results exampleHourlySheet ("28.01")).2.headers
        = exampleHourlySheet.headers.set (4 - 1) ("28.01") ∧
      matchesHourly ("28.01") ("28.01") = false) :=
  ⟨⟨by decide, by decide⟩,
    C7_consolidation_noop_and_rename exampleDailySheet exampleHourlySheet ("28.01") 4
      (by decide) (by decide)⟩

/-! ## Lemmas for the task-parsing model -/

theorem nearestHeaderOr_zero (cur : Option String) (rows : List (List String)) :
    nearestHeaderOr cur rows 0 = cur := by
  cases rows <;> rfl

theorem nearestHeaderOr_cons (cur : Option String) (row : List String)
    (rest : List (List String)) (i : Nat) :
    nearestHeaderOr cur (row :: rest) (i + 1) =
      nearestHeaderOr
        (if strip (row.getD 0 "") ≠ "" then some (strip (row.getD 0 "")) else cur)
        rest i := by
  unfold nearestHeaderOr
  rw [nearestHeader]
  cases h : nearestHeader rest i with
  | some a => rfl
  | none =>
    dsimp only
    by_cases h0 : strip (row.getD 0 "") ≠ ""
    · rw [if_pos h0, if_pos h0]
    · rw [if_neg h0, if_neg h0]

theorem tasksSpecFrom_shift (cur : Option String) (idx : Nat) (row : List String)
    (rest : List (List String)) :
    List.filterMap ((fun i =>
      if strip (((row :: rest).getD i []).getD 0 "") = ""
          ∧ strip (((row :: rest).getD i []).getD 2 "") ≠ "" then
        (nearestHeaderOr cur (row :: rest) i).map
          (fun a => (⟨i + idx, a, strip (((row :: rest).getD i []).getD 2 "")⟩ : SearchTask))
      else none) ∘ Nat.succ) (List.range rest.length)
    = tasksSpecFrom
        (if strip (row.getD 0 "") ≠ "" then some (strip (row.getD 0 "")) else cur)
        (idx + 1) rest := by
  unfold tasksSpecFrom
  congr 1
  funext i
  simp only [Function.comp]
  rw [List.getD_cons_succ, nearestHeaderOr_cons]
  simp only [show ∀ m : Nat, Nat.succ m + idx = m + (idx + 1) from fun m => by omega]

theorem tasksSpecFrom_cons (cur : Option String) (idx : Nat) (row : List String)
    (rest : List (List String)) :
    tasksSpecFrom cur idx (row :: rest) =
      (if strip (row.getD 0 "") = "" ∧ strip (row.getD 2 "") ≠ "" then
        (cur.map (fun a => (⟨idx, a, strip (row.getD 2 "")⟩ : SearchTask))).toList
      else []) ++
      tasksSpecFrom
        (if strip (row.getD 0 "") ≠ "" then some (strip (row.getD 0 "")) else cur)
        (idx + 1) rest := by
  rw [tasksSpecFrom]
  rw [List.length_cons, List.range_succ_eq_map, List.filterMap_cons]
  rw [show List.filterMap _ (List.map Nat.succ (List.range rest.length)) = _ from
    List.filterMap_map _ _ _]
  rw [tasksSpecFrom_shift cur idx row rest]
  simp only [List.getD_cons_zero, nearestHeaderOr_zero, Nat.zero_add]
  by_cases hc : strip (row.getD 0 "") = "" ∧ strip (row.getD 2 "") ≠ ""
  · rw [if_pos hc, if_pos hc]
    cases cur <;> simp
  · rw [if_neg hc, if_neg hc]
    simp

theorem tasksLoop_eq_specFrom (rows : List (List String)) :
    ∀ (idx : Nat) (cur : Option String), (∀ row ∈ rows, 3 ≤ row.length) →
    (∀ a, cur = some a → ¬ a = "") →
    tasksLoop rows idx cur = tasksSpecFrom cur idx rows := by
  induction rows with
  | nil => intro idx cur _ _; rfl
  | cons row rest ih =>
    intro idx cur hlen hcur
    rw [tasksSpecFrom_cons, tasksLoop]
    have h3 : ¬ row.length < 3 := by have := hlen row (by simp); omega
    rw [if_neg h3]
    dsimp only
    by_cases ha : strip (row.getD 0 "") ≠ ""
    · rw [if_pos ha]
      rw [ih (idx + 1) (some (strip (row.getD 0 "")))
        (fun r hr => hlen r (by simp [hr]))
        (fun a haeq => by
          injection haeq with hh
          rw [← hh]
          exact ha)]
      rw [if_neg (fun hcon => ha hcon.1), if_pos ha]
      simp
    · rw [if_neg ha]
      have ha' : strip (row.getD 0 "") = "" := not_not.mp ha
      rw [if_neg ha]
      cases hc : cur with
      | none =>
        subst hc
        rw [ih (idx + 1) none (fun r hr => hlen r (by simp [hr])) (by simp)]
        simp
      | some art =>
        subst hc
        have hart : ¬ art = "" := hcur art rfl
        rw [ih (idx + 1) (some art) (fun r hr => hlen r (by simp [hr]))
          (fun a haeq => by
            injection haeq with hh
            rw [← hh]
            exact hart)]
        dsimp only
        by_cases hq : strip (row.getD 2 "") ≠ ""
        · rw [if_pos (show art ≠ "" ∧ strip (row.getD 2 "") ≠ "" from ⟨hart, hq⟩)]
          rw [if_pos (show strip (row.getD 0 "") = "" ∧ strip (row.getD 2 "") ≠ ""
            from ⟨ha', hq⟩)]
          simp
        · rw [if_neg (show ¬ (art ≠ "" ∧ strip (row.getD 2 "") ≠ "")
            from fun hcon => hq hcon.2)]
          rw [if_neg (show ¬ (strip (row.getD 0 "") = "" ∧ strip (row.getD 2 "") ≠ "")
            from fun hcon => hq hcon.2)]
          simp

theorem tasksSpec_eq_from (rows : List (List String)) :
    tasksSpec rows = tasksSpecFrom none 2 rows := by
  unfold tasksSpec tasksSpecFrom
  congr 1
  funext i
  have h : nearestHeaderOr none rows i = nearestHeader rows i := by
    unfold nearestHeaderOr
    cases nearestHeader rows i <;> rfl
  rw [h]

/-- C9 counterexample: on a ragged sheet the claim fails.  The identifier row
has fewer than 3 cells, so the code skips it entirely and carries no current
article; the following query row therefore yields no task, although the
claim's conditions (empty identifier cell, non-empty query, a preceding
non-empty identifier row) all hold for it. -/
theorem C9_tasks_counterexample :
    ¬ (get_tasks_from_sheet [[], ["A"], ["", "", "q"]]
        = tasksSpec ([[], ["A"], ["", "", "q"]].drop 1)) := by decide

/-- C9 (amended): provided every data row has at least 3 cells (the padded
matrix the sheet API returns), the parsed task list is exactly the data rows
with an empty identifier cell, a non-empty query cell and at least one
preceding non-empty identifier row, each inheriting the nearest preceding
identifier; rows carrying an identifier produce no task. -/
theorem C9_tasks_amended (data : List (List String))
    (h : ∀ row ∈ data.drop 1, 3 ≤ row.length) :
    get_tasks_from_sheet data = tasksSpec (data.drop 1) := by
  unfold get_tasks_from_sheet
  rw [tasksSpec_eq_from]
  exact tasksLoop_eq_specFrom (data.drop 1) 2 none h (by simp)

/-- Witness for the amended task-parsing theorem at a concrete sheet. -/
theorem C9_tasks_amended_witness :
    (3 ≤ (["A", "x", "y"] : List String).length
      ∧ 3 ≤ (["", "", "q"] : List String).length) ∧
    get_tasks_from_sheet [["h", "h", "h"], ["A", "x", "y"], ["", "", "q"]]
      = tasksSpec [["A", "x", "y"], ["", "", "q"]] :=
  ⟨by decide,
    C9_tasks_amended [["h", "h", "h"], ["A", "x", "y"], ["", "", "q"]] (by decide)⟩

/-! ## Lemmas for the run write phase and the worker model -/

theorem getD_replicate {α : Type} (d : α) (k i : Nat) :
    (List.replicate k d).getD i d = d := by
  induction k generalizing i with
  | zero => simp
  | succ n ih =>
    cases i with
    | zero => simp [List.replicate]
    | succ m => simp [List.replicate]

theorem getD_append_rep {α : Type} (l : List α) (d : α) (k i : Nat) :
    (l ++ List.replicate k d).getD i d = l.getD i d := by
  induction l generalizing i with
  | nil => simp [getD_replicate]
  | cons x xs ih =>
    cases i with
    | zero => simp
    | succ m => simpa using ih m

theorem writeCell_headers (s : Sheet) (r c : Nat) (v : String) :
    (writeCell s r c v).headers = s.headers := rfl

theorem writeCell_cell_self (s : Sheet) (r c : Nat) (v : String)
    (hr : 2 ≤ r) (hc : 1 ≤ c) :
    ((writeCell s r c v).rows.getD (r - 2) []).getD (c - 1) "" = v := by
  unfold writeCell
  have hlen : r - 2 < (s.rows ++ List.replicate (r - 1 - s.rows.length) []).length := by
    rw [List.length_append, List.length_replicate]
    omega
  rw [getD_set_self _ _ _ _ hlen]
  exact setCellPadded_getD_self _ _ _ hc

theorem writeCell_cell_other (s : Sheet) (r c : Nat) (v : String) (r' c' : Nat)
    (hr : 2 ≤ r) (hc : 1 ≤ c) (hr' : 2 ≤ r') (hc' : 1 ≤ c')
    (hne : ¬ r' = r ∨ ¬ c' = c) :
    ((writeCell s r c v).rows.getD (r' - 2) []).getD (c' - 1) ""
      = (s.rows.getD (r' - 2) []).getD (c' - 1) "" := by
  unfold writeCell
  rcases hne with hne | hne
  · rw [getD_set_ne _ _ _ _ _ (by omega)]
    rw [getD_append_rep]
  · by_cases hrr : r' = r
    · subst hrr
      have hlen : r' - 2 < (s.rows ++ List.replicate (r' - 1 - s.rows.length) []).length := by
        rw [List.length_append, List.length_replicate]
        omega
      rw [getD_set_self _ _ _ _ hlen]
      unfold setCellPadded
      rw [getD_set_ne _ _ _ _ _ (by omega)]
      rw [getD_append_rep, getD_append_rep]
    · rw [getD_set_ne _ _ _ _ _ (by omega)]
      rw [getD_append_rep]

theorem foldWrites_headers (results : List (SearchTask × String)) :
    ∀ s : Sheet,
    (results.foldl (fun sh tr => writeCell sh tr.1.row_index 4 tr.2) s).headers
      = s.headers := by
  induction results with
  | nil => intro s; rfl
  | cons tr rest ih =>
    intro s
    rw [List.foldl_cons, ih]
    rfl

theorem foldWrites_cell_other (results : List (SearchTask × String)) :
    ∀ (s : Sheet) (r c : Nat), 2 ≤ r → 1 ≤ c →
    (∀ tr ∈ results, 2 ≤ tr.1.row_index) →
    (∀ tr ∈ results, ¬ tr.1.row_index = r ∨ ¬ c = 4) →
    ((results.foldl (fun sh tr => writeCell sh tr.1.row_index 4 tr.2) s).rows.getD
      (r - 2) []).getD (c - 1) ""
      = (s.rows.getD (r - 2) []).getD (c - 1) "" := by
  induction results with
  | nil => intro s r c _ _ _ _; rfl
  | cons tr rest ih =>
    intro s r c hr hc hrows hne
    rw [List.foldl_cons]
    rw [ih _ r c hr hc (fun x hx => hrows x (by simp [hx]))
      (fun x hx => hne x (by simp [hx]))]
    rcases hne tr (by simp) with h | h
    · exact writeCell_cell_other s _ 4 _ r c (hrows tr (by simp)) (by omega) hr hc
        (Or.inl (fun hcon => h hcon.symm))
    · exact writeCell_cell_other s _ 4 _ r c (hrows tr (by simp)) (by omega) hr hc
        (Or.inr (fun hcon => h (by omega)))

theorem foldWrites_cell_task (results : List (SearchTask × String)) :
    ∀ (s : Sheet) (t : SearchTask) (res : String),
    (∀ tr ∈ results, 2 ≤ tr.1.row_index) →
    (results.map (fun tr => tr.1.row_index)).Nodup →
    (t, res) ∈ results →
    ((results.foldl (fun sh tr => writeCell sh tr.1.row_index 4 tr.2) s).rows.getD
      (t.row_index - 2) []).getD 3 "" = res := by
  induction results with
  | nil => intro s t res _ _ hmem; simp at hmem
  | cons tr rest ih =>
    intro s t res hrows hnodup hmem
    rw [List.foldl_cons]
    have hnodup2 := hnodup
    rw [List.map_cons] at hnodup2
    have hpair := List.nodup_cons.mp hnodup2
    rcases List.mem_cons.mp hmem with heq | hmem2
    · have hre : tr = (t, res) := heq.symm
      subst hre
      have hnotin : ∀ x ∈ rest, ¬ x.1.row_index = t.row_index ∨ ¬ (4 : Nat) = 4 := by
        intro x hx
        left
        intro hcon
        exact hpair.1 (List.mem_map.mpr ⟨x, hx, hcon⟩)
      have h4 : ((4 : Nat) - 1) = 3 := rfl
      have hother := foldWrites_cell_other rest (writeCell s t.row_index 4 res)
        t.row_index 4 (hrows (t, res) (by simp)) (by omega)
        (fun x hx => hrows x (by simp [hx])) hnotin
      rw [h4] at hother
      rw [hother]
      have hw := writeCell_cell_self s t.row_index 4 res (hrows (t, res) (by simp)) (by omega)
      rw [h4] at hw
      exact hw
    · exact ih _ t res (fun x hx => hrows x (by simp [hx])) hpair.2 hmem2

/-- C5 counterexample: the current hour's column already exists at position D
and the task's cell is already filled with 7, yet the run reprocesses the task
and overwrites the cell with the new result 3 - the code never reads cell
contents to restrict the task set. -/
theorem C5_resume_counterexample :
    exampleRunSheet.headers.getD 3 "" = "28.01 14:00" ∧
    (exampleRunSheet.rows.getD 0 []).getD 3 "" = "7" ∧
    ((run_writes ("28.01 14:00") exampleRunSheet
        [(⟨2, "A", "q1"⟩, "3")]).rows.getD 0 []).getD 3 "" = "3" ∧
    ¬ ("3" = "7") := by decide

/-- C5 (amended): when the current hour's column already exists at position D,
the run reuses that column (headers unchanged) but does not restrict itself to
empty cells: every processed task's cell in column D is overwritten with that
task's new result, and only cells outside the processed tasks' (row, D)
positions keep their values. -/
theorem C5_resume_amended (columnName : String) (s : Sheet)
    (results : List (SearchTask × String)) (r c : Nat) (t : SearchTask) (res : String)
    (hcol : 4 ≤ s.headers.length ∧ s.headers.getD 3 "" = columnName)
    (hrows : ∀ tr ∈ results, 2 ≤ tr.1.row_index)
    (hnodup : (results.map (fun tr => tr.1.row_index)).Nodup)
    (hmem : (t, res) ∈ results)
    (hr : 2 ≤ r) (hc : 1 ≤ c)
    (havoid : ∀ tr ∈ results, ¬ tr.1.row_index = r ∨ ¬ c = 4) :
    (run_writes columnName s results).headers = s.headers ∧
    ((run_writes columnName s results).rows.getD (r - 2) []).getD (c - 1) ""
      = (s.rows.getD (r - 2) []).getD (c - 1) "" ∧
    ((run_writes columnName s results).rows.getD (t.row_index - 2) []).getD 3 "" = res := by
  unfold run_writes get_or_create_hourly_column
  rw [if_pos hcol]
  dsimp only
  exact ⟨foldWrites_headers results s,
    foldWrites_cell_other results s r c hr hc hrows havoid,
    foldWrites_cell_task results s t res hrows hnodup hmem⟩

/-- Witness for the amended write-phase theorem: the filled cell of row 2 is
overwritten, row 3's empty cell receives its result, and the untouched query
cell keeps its value. -/
theorem C5_resume_amended_witness :
    ((4 ≤ exampleRunSheet.headers.length
        ∧ exampleRunSheet.headers.getD 3 "" = "28.01 14:00") ∧
      (2 ≤ (2 : Nat) ∧ 2 ≤ (3 : Nat)) ∧ (2 : Nat) ≠ 3) ∧
    ((run_writes ("28.01 14:00") exampleRunSheet
        [(⟨2, "A", "q1"⟩, "3"), (⟨3, "A", "q2"⟩, "8")]).headers
      = exampleRunSheet.headers ∧
    ((run_writes ("28.01 14:00") exampleRunSheet
        [(⟨2, "A", "q1"⟩, "3"), (⟨3, "A", "q2"⟩, "8")]).rows.getD 0 []).getD 2 ""
      = (exampleRunSheet.rows.getD 0 []).getD 2 "" ∧
    ((run_writes ("28.01 14:00") exampleRunSheet
        [(⟨2, "A", "q1"⟩, "3"), (⟨3, "A", "q2"⟩, "8")]).rows.getD 1 []).getD 3 ""
      = "8") :=
  ⟨by decide,
    C5_resume_amended ("28.01 14:00") exampleRunSheet
      [(⟨2, "A", "q1"⟩, "3"), (⟨3, "A", "q2"⟩, "8")] 2 3 ⟨3, "A", "q2"⟩ "8"
      (by decide) (by decide) (by decide) (by decide) (by decide) (by decide)
      (by decide)⟩

/-- C6 counterexample: a worker whose page recovery fails stops with the
current task unrecorded and the remaining queue undrained - here neither of
the two enqueued tasks gets any recorded outcome. -/
theorem C6_pool_counterexample :
    workerRun 1000
      [(⟨2, "A", "q1"⟩, TaskBehavior.raisesNoRecovery),
        (⟨3, "B", "q2"⟩, TaskBehavior.completes [AttemptEvent.ok (some 5)])] = [] ∧
    ([(⟨2, "A", "q1"⟩, TaskBehavior.raisesNoRecovery),
        (⟨3, "B", "q2"⟩, TaskBehavior.completes [AttemptEvent.ok (some 5)])] :
      List (SearchTask × TaskBehavior)).length = 2 := by decide

/-- C6 (amended): provided no worker-level page-recovery failure occurs, every
enqueued task gets exactly one recorded outcome, in order; and a task whose
own processing fails persistently (any attempt script) still gets a recorded
outcome without affecting the processing of the remaining tasks. -/
theorem C6_pool_amended (maxPos : Nat) (script : List (SearchTask × TaskBehavior))
    (t : SearchTask) (events : List AttemptEvent) (rest : List (SearchTask × TaskBehavior))
    (h : ∀ tb ∈ script, ¬ tb.2 = TaskBehavior.raisesNoRecovery) :
    (workerRun maxPos script).map (fun p => p.1) = script.map (fun p => p.1) ∧
    workerRun maxPos ((t, TaskBehavior.completes events) :: rest)
      = (t, (runCell maxPos events).1) :: workerRun maxPos rest := by
  refine ⟨?_, rfl⟩
  induction script with
  | nil => rfl
  | cons tb rest2 ih =>
    rcases tb with ⟨task, behavior⟩
    cases behavior with
    | completes ev =>
      rw [workerRun, List.map_cons, List.map_cons]
      rw [ih (fun x hx => h x (by simp [hx]))]
    | raisesThenRecovers =>
      rw [workerRun, List.map_cons, List.map_cons]
      rw [ih (fun x hx => h x (by simp [hx]))]
    | raisesNoRecovery =>
      exact absurd rfl (h (task, TaskBehavior.raisesNoRecovery) (by simp))

/-- Witness for the amended pool theorem: a task whose three attempts are all
blocked still gets an outcome and the next task completes. -/
theorem C6_pool_amended_witness :
    (¬ (TaskBehavior.completes [AttemptEvent.blocked, AttemptEvent.blocked,
        AttemptEvent.blocked] = TaskBehavior.raisesNoRecovery) ∧
      ¬ (TaskBehavior.completes [AttemptEvent.ok (some 4)]
        = TaskBehavior.raisesNoRecovery)) ∧
    ((workerRun 1000
        [(⟨2, "A", "q1"⟩, TaskBehavior.completes
            [AttemptEvent.blocked, AttemptEvent.blocked, AttemptEvent.blocked]),
          (⟨3, "B", "q2"⟩, TaskBehavior.completes [AttemptEvent.ok (some 4)])]).map
        (fun p => p.1)
      = ([(⟨2, "A", "q1"⟩, TaskBehavior.completes
            [AttemptEvent.blocked, AttemptEvent.blocked, AttemptEvent.blocked]),
          (⟨3, "B", "q2"⟩, TaskBehavior.completes [AttemptEvent.ok (some 4)])] :
          List (SearchTask × TaskBehavior)).map (fun p => p.1) ∧
    workerRun 1000
        ((⟨2, "A", "q1"⟩, TaskBehavior.completes
            [AttemptEvent.blocked, AttemptEvent.blocked, AttemptEvent.blocked]) ::
          [(⟨3, "B", "q2"⟩, TaskBehavior.completes [AttemptEvent.ok (some 4)])])
      = (⟨2, "A", "q1"⟩, (runCell 1000 [AttemptEvent.blocked, AttemptEvent.blocked,
          AttemptEvent.blocked]).1) ::
        workerRun 1000 [(⟨3, "B", "q2"⟩, TaskBehavior.completes
          [AttemptEvent.ok (some 4)])]) :=
  ⟨by decide,
    C6_pool_amended 1000
      [(⟨2, "A", "q1"⟩, TaskBehavior.completes
          [AttemptEvent.blocked, AttemptEvent.blocked, AttemptEvent.blocked]),
        (⟨3, "B", "q2"⟩, TaskBehavior.completes [AttemptEvent.ok (some 4)])]
      ⟨2, "A", "q1"⟩
      [AttemptEvent.blocked, AttemptEvent.blocked, AttemptEvent.blocked]
      [(⟨3, "B", "q2"⟩, TaskBehavior.completes [AttemptEvent.ok (some 4)])]
      (by decide)⟩

/-- C10 counterexample: exhausting the retry budget with three blocked
attempts leaves the position None, so the cell records the ceiling string, not
the dash the claim requires for retry exhaustion. -/
theorem C10_ledger_counterexample :
    runCell 1000 [AttemptEvent.blocked, AttemptEvent.blocked, AttemptEvent.blocked]
      = ("1000+", false) ∧
    ¬ ((runCell 1000 [AttemptEvent.blocked, AttemptEvent.blocked,
        AttemptEvent.blocked]).1 = "—") := by decide

/-- C10 (amended): the recorded string is the decimal rendering (highlighted)
for a positive final position, `<max_position>+` when the final position is
None, and the dash otherwise; exhausting the retry budget with
blocked/page-load failures leaves the position None and records
`<max_position>+` (indistinguishable from a genuine ceiling-scanned
not-found), while the incomplete result (-1 after retries) and the
non-retryable error are recorded identically as the dash. -/
theorem C10_ledger_amended (maxPos : Nat) (vpos vneg : Int)
    (hp : 0 < vpos) (hn : vneg ≤ 0) :
    resultCell maxPos (some vpos) = (toString vpos, true) ∧
    resultCell maxPos none = (toString maxPos ++ "+", false) ∧
    resultCell maxPos (some vneg) = ("—", false) ∧
    runCell maxPos [AttemptEvent.blocked, AttemptEvent.blocked, AttemptEvent.blocked]
      = (toString maxPos ++ "+", false) ∧
    runCell maxPos [AttemptEvent.ok (some (-1)), AttemptEvent.ok (some (-1)),
      AttemptEvent.ok (some (-1))] = ("—", false) ∧
    runCell maxPos [AttemptEvent.fatalError] = ("—", false) := by
  have hnlt : ¬ (0 : Int) < vneg := by omega
  refine ⟨?_, rfl, ?_, rfl, rfl, rfl⟩
  · simp [resultCell, hp]
  · simp [resultCell, hnlt]

/-- Witness for the amended ledger-string theorem. -/
theorem C10_ledger_amended_witness :
    ((0 : Int) < 7 ∧ (-1 : Int) ≤ 0) ∧
    (resultCell 1000 (some 7) = (toString (7 : Int), true) ∧
      resultCell 1000 none = (toString (1000 : Nat) ++ "+", false) ∧
      resultCell 1000 (some (-1)) = ("—", false) ∧
      runCell 1000 [AttemptEvent.blocked, AttemptEvent.blocked, AttemptEvent.blocked]
        = (toString (1000 : Nat) ++ "+", false) ∧
      runCell 1000 [AttemptEvent.ok (some (-1)), AttemptEvent.ok (some (-1)),
        AttemptEvent.ok (some (-1))] = ("—", false) ∧
      runCell 1000 [AttemptEvent.fatalError] = ("—", false)) :=
  ⟨by decide, C10_ledger_amended 1000 7 (-1) (by decide) (by decide)⟩
